import Mathlib

/-!
# Verification of the TrustQuery (TQL) document format core

Shallow embedding of `src/lib/parser/generator.ts` (document/conversation
generator and parser) together with spec-modelled row operations and diff
engine, and proofs settling the frozen claims about the system.

JavaScript strings are modelled as Lean `String`s (lists of characters);
the JS string primitives used by the source (`split`, `trim`, `padEnd`,
`join`, `startsWith`, slicing) are given as explicit definitions over the
character list so that every step of the source is visible.  JS objects
holding string fields (the rows of a facet) are modelled as association
lists `List (String × String)` in key insertion order; `row[k]` reads the
first binding, assignment `row[k] = v` updates in place or appends, which
is exactly the JS object semantics used by the source.
-/

deriving instance DecidableEq for Except

namespace Tql

/-! ## JS string primitives -/

/-- `c.isWhitespace`, the model of the `\s` character class and of the
characters removed by `String.prototype.trim` (ASCII fragment). -/
def isWs (c : Char) : Bool := c.isWhitespace

/-- Characters of `l` with leading and trailing whitespace removed:
the model of `String.prototype.trim`. -/
def trimChars (l : List Char) : List Char :=
  ((l.dropWhile isWs).reverse.dropWhile isWs).reverse

/-- JS `s.trim()`. -/
def jsTrim (s : String) : String := String.mk (trimChars s.data)

/-- Split a character list at every occurrence of `c`
(the model of JS `s.split(c)`, which keeps empty segments). -/
def splitCh (c : Char) : List Char → List (List Char)
  | [] => [[]]
  | x :: xs =>
    match splitCh c xs with
    | [] => [[]]
    | y :: ys => if x = c then [] :: y :: ys else (x :: y) :: ys

/-- JS `content.split('\n')`. -/
def splitLines (s : String) : List String :=
  (splitCh '\n' s.data).map String.mk

/-- JS `Array.prototype.join(sep)`. -/
def jsJoin (sep : String) : List String → String
  | [] => ""
  | [x] => x
  | x :: y :: xs => x ++ sep ++ jsJoin sep (y :: xs)

/-- JS `s.padEnd(w, ' ')` (the two-argument form used by the source
defaults the fill to a space). -/
def padEnd (s : String) (w : Nat) : String :=
  s ++ String.mk (List.replicate (w - s.length) ' ')

/-- Consume the literal `lit` from the front of `l`; `some rest` on
success.  Used to model the anchored literal parts of the source's
regular expressions. -/
def dropLit : List Char → List Char → Option (List Char)
  | [], rest => some rest
  | _ :: _, [] => none
  | c :: cs, x :: xs => if x = c then dropLit cs xs else none

/-- JS `s.startsWith(p)`. -/
def jsStartsWith (s p : String) : Bool := (dropLit p.data s.data).isSome

/-- Value of a digit run, the model of `Number.parseInt(digits, 10)`
on a string of decimal digits. -/
def digitsToNat (l : List Char) : Nat :=
  l.foldl (fun a c => a * 10 + (c.toNat - '0'.toNat)) 0

/-! ## Data model

A `Row` is a JS object of string fields: an association list in key
insertion order.  A document carries the nine facets; in the TS source
each facet is a record `{rows: [...]}` whose only field is the row list,
so a facet is modelled by its row list directly.  The TS field
`structure` is a Lean keyword and is rendered `structure'`. -/

abbrev Row := List (String × String)

/-- JS `row[h] || ''` (also `String(row[h] || '')`): the value of field
`h`, or the empty string if absent (or empty). -/
def Row.get (r : Row) (h : String) : String :=
  match r.find? (fun p => p.1 == h) with
  | some p => p.2
  | none => ""

/-- JS assignment `row[k] = v`: update the existing binding in place,
or append a new one. -/
def setField (r : Row) (k v : String) : Row :=
  if r.any (fun p => p.1 == k) then r.map (fun p => if p.1 = k then (k, v) else p)
  else r ++ [(k, v)]

/-- `TqlDocument`: one snapshot with all nine facets (each a row list). -/
structure TqlDocument where
  table : List Row
  meaning : List Row
  structure' : List Row
  ambiguity : List Row
  intent : List Row
  context : List Row
  query : List Row
  tasks : List Row
  score : List Row
deriving DecidableEq, Repr

/-- The document every parse starts from: all nine facets empty
(the literal `doc` object at the top of `parseTqlDocumentFromString`). -/
def emptyTqlDocument : TqlDocument := ⟨[], [], [], [], [], [], [], [], []⟩

/-- A conversation sequence entry: `{'#document[+n]': doc}` or
`{'$diff[+i→+j]': diff}`, tagged by its single key. -/
inductive SequenceItem where
  | document (key : String) (doc : TqlDocument)
  | diff (key : String) (body : String)
deriving DecidableEq, Repr

/-- `Object.keys(item)[0]`. -/
def SequenceItem.key : SequenceItem → String
  | .document k _ => k
  | .diff k _ => k

/-- Whether a sequence entry is a document entry. -/
def SequenceItem.isDocument : SequenceItem → Bool
  | .document _ _ => true
  | .diff _ _ => false

/-- `TqlConversation`: the ordered sequence of entries. -/
structure TqlConversation where
  sequence : List SequenceItem
deriving DecidableEq, Repr

/-! ## Generator (`generator.ts`) -/

/-- The facet header line `` `@${facetName}[${rowCount}]:` ``. -/
def facetHeaderLine (facetName : String) (rowCount : Nat) : String :=
  "@" ++ facetName ++ "[" ++ Nat.repr rowCount ++ "]:"

/-- Column widths: for each header, `max(header.length, max over rows of
`String(row[header] || '').length`)` (`Math.max` of an empty spread is
replaced by `0` in the source). -/
def colWidths (headers : List String) (rows : List Row) : List Nat :=
  headers.map fun h =>
    max h.length ((rows.map fun r => (Row.get r h).length).foldl max 0)

/-- One rendered table-syntax line:
`'| ' + cells.map((c, i) => c.padEnd(colWidths[i])).join(' | ') + ' |'`.
Used for the header row (cells = the headers) and for each data row
(cells = the row's values in header order). -/
def renderCellsLine (cells : List String) (widths : List Nat) : String :=
  "| " ++ jsJoin " | " (List.zipWith padEnd cells widths) ++ " |"

/-- The dashed separator row:
`'|' + colWidths.map(w => '-'.repeat(w + 2)).join('|') + '|'`. -/
def renderSeparator (widths : List Nat) : String :=
  "|" ++ jsJoin "|" (widths.map fun w => String.mk (List.replicate (w + 2) '-')) ++ "|"

/-- The lines pushed by `generateTable`: facet header, column header row,
separator row, then one line per data row. -/
def generateTableLines (headers : List String) (rows : List Row) (rowCount : Nat)
    (facetName : String) : List String :=
  [facetHeaderLine facetName rowCount,
   renderCellsLine headers (colWidths headers rows),
   renderSeparator (colWidths headers rows)]
  ++ rows.map fun row => renderCellsLine (headers.map (Row.get row)) (colWidths headers rows)

/-- `generateTable(headers, rows, rowCount, facetName)`: the pushed lines
joined with `'\n'`. -/
def generateTable (headers : List String) (rows : List Row) (rowCount : Nat)
    (facetName : String) : String :=
  jsJoin "\n" (generateTableLines headers rows rowCount facetName)

/-- `generateTableSection`: the `table` facet derives its column list from
the first row's keys; an empty table renders with a single `index` column
and zero rows. -/
def generateTableSection (doc : TqlDocument) : String :=
  if doc.table.length = 0 then generateTable ["index"] [] 0 "table"
  else generateTable ((doc.table.headD []).map Prod.fst) doc.table doc.table.length "table"

/-- `generateMeaningSection`. -/
def generateMeaningSection (doc : TqlDocument) : String :=
  generateTable ["index", "column", "definition"] doc.meaning doc.meaning.length "meaning"

/-- `generateStructureSection`. -/
def generateStructureSection (doc : TqlDocument) : String :=
  generateTable ["index", "column", "nullAllowed", "dataType", "minValue", "maxValue", "format"]
    doc.structure' doc.structure'.length "structure"

/-- `generateAmbiguitySection`. -/
def generateAmbiguitySection (doc : TqlDocument) : String :=
  generateTable ["index", "query_trigger", "ambiguity_type", "ambiguity_risk"]
    doc.ambiguity doc.ambiguity.length "ambiguity"

/-- `generateIntentSection`. -/
def generateIntentSection (doc : TqlDocument) : String :=
  generateTable ["index", "query_trigger", "clarifying_question", "options", "user_response", "user_confirmed"]
    doc.intent doc.intent.length "intent"

/-- `generateContextSection`. -/
def generateContextSection (doc : TqlDocument) : String :=
  generateTable ["index", "key", "value"] doc.context doc.context.length "context"

/-- `generateQuerySection`. -/
def generateQuerySection (doc : TqlDocument) : String :=
  generateTable ["index", "user_message", "timestamp_utc"] doc.query doc.query.length "query"

/-- `generateTasksSection`. -/
def generateTasksSection (doc : TqlDocument) : String :=
  generateTable ["index", "name", "description", "formula"] doc.tasks doc.tasks.length "tasks"

/-- `generateScoreSection`. -/
def generateScoreSection (doc : TqlDocument) : String :=
  generateTable ["index", "measure", "value"] doc.score doc.score.length "score"

/-- `generateTqlFromJson(doc)`: all nine facet sections, always, in fixed
order, joined with `'\n\n'`. -/
def generateTqlFromJson (doc : TqlDocument) : String :=
  jsJoin "\n\n"
    [generateTableSection doc, generateMeaningSection doc, generateStructureSection doc,
     generateAmbiguitySection doc, generateIntentSection doc, generateContextSection doc,
     generateQuerySection doc, generateTasksSection doc, generateScoreSection doc]

/-! ## Parser (`generator.ts`, parsing half) -/

/-- JS `\w` character class. -/
def isWordChar (c : Char) : Bool := c.isAlphanum || c = '_'

/-- `parseFacetHeader`: match `/^@(\w+)\[\d+\]:/` and return the facet
name (capture group 1).  The regex is decomposed positionally: leading
`@`, a maximal nonempty `\w` run, `[`, a maximal nonempty digit run,
then `]:` (maximal-munch is equivalent to the regex here because `\w`
excludes `[` and digits exclude `]`). -/
def parseFacetHeader (line : String) : Option String :=
  match line.data with
  | [] => none
  | c :: rest =>
    if c = '@' then
      let name := rest.takeWhile isWordChar
      if name.isEmpty then none
      else
        match rest.dropWhile isWordChar with
        | [] => none
        | c2 :: rest2 =>
          if c2 = '[' then
            let digits := rest2.takeWhile Char.isDigit
            if digits.isEmpty then none
            else
              match rest2.dropWhile Char.isDigit with
              | c3 :: c4 :: _ =>
                if c3 = ']' ∧ c4 = ':' then some (String.mk name) else none
              | _ => none
          else none
    else none

/-- The `[-\s|]` character class of the separator-row pattern. -/
def sepClass (c : Char) : Bool := c == '-' || isWs c || c == '|'

/-- `isSeparatorRow`: match `/^\|[-\s|]+\|$/` — a leading pipe, at least
one character of the class, and a closing pipe at the end of the line. -/
def isSeparatorRow (line : String) : Bool :=
  match line.data with
  | [] => false
  | c :: rest =>
    (c == '|') && decide (2 ≤ rest.length) && rest.dropLast.all sepClass
      && (rest.getLast? == some '|')

/-- `isTableRow`: `line.startsWith('|')`. -/
def isTableRow (line : String) : Bool :=
  match line.data with
  | [] => false
  | c :: _ => c == '|'

/-- `parseTableRow`: `line.trim().slice(1, -1)` split on `'|'`, each cell
trimmed. -/
def parseTableRow (line : String) : List String :=
  (splitCh '|' (((jsTrim line).data.drop 1).dropLast)).map fun cell => String.mk (trimChars cell)

/-- The header/cell pairs visited by
`for (const [j, h] of headers.entries())`: the j-th header with the j-th
cell, missing trailing cells defaulting to the empty string
(`cells[j] || ''`). -/
def rowPairs : List String → List String → List (String × String)
  | [], _ => []
  | h :: hs, [] => (h, "") :: rowPairs hs []
  | h :: hs, c :: cs => (h, c) :: rowPairs hs cs

/-- The row object built by the parser's data-row loop: successive JS
assignments `row[h] = cells[j] || ''` starting from `{}`. -/
def buildRow (headers cells : List String) : Row :=
  (rowPairs headers cells).foldl (fun r p => setField r p.1 p.2) []

/-- `addRowToFacet` via the `FACET_REGISTRY` lookup: push the row onto the
named facet's row list, silently ignoring unknown facet names. -/
def addRowToFacet (doc : TqlDocument) (facet : String) (row : Row) : TqlDocument :=
  if facet = "ambiguity" then { doc with ambiguity := doc.ambiguity ++ [row] }
  else if facet = "context" then { doc with context := doc.context ++ [row] }
  else if facet = "intent" then { doc with intent := doc.intent ++ [row] }
  else if facet = "meaning" then { doc with meaning := doc.meaning ++ [row] }
  else if facet = "query" then { doc with query := doc.query ++ [row] }
  else if facet = "score" then { doc with score := doc.score ++ [row] }
  else if facet = "structure" then { doc with structure' := doc.structure' ++ [row] }
  else if facet = "table" then { doc with table := doc.table ++ [row] }
  else if facet = "tasks" then { doc with tasks := doc.tasks ++ [row] }
  else doc

/-- The loop state of `parseTqlDocumentFromString`: the document under
construction, the active facet, the recorded column names, and the two
flags of the second-level state machine. -/
structure ParseState where
  doc : TqlDocument
  currentFacet : Option String
  currentHeaders : List String
  inDataSection : Bool
  headerParsed : Bool
deriving Repr

/-- One iteration of the line loop of `parseTqlDocumentFromString`
(the body of `for (const line_ of lines)`). -/
def parseStep (s : ParseState) (rawLine : String) : ParseState :=
  let line := jsTrim rawLine
  -- end of table section: empty line while a column list is recorded
  if line = "" ∧ s.currentHeaders ≠ [] then
    { s with currentHeaders := [], inDataSection := false, headerParsed := false }
  else
    match parseFacetHeader line with
    | some name =>
      { s with currentFacet := some name, inDataSection := true,
               headerParsed := false, currentHeaders := [] }
    | none =>
      -- skip empty lines or lines without a current facet
      if line = "" ∨ s.currentFacet = none then s
      -- separator rows mark the header as parsed
      else if isSeparatorRow line then { s with headerParsed := true }
      -- the first table-syntax row before the separator is the header row
      else if s.inDataSection ∧ isTableRow line ∧ ¬ s.headerParsed ∧ s.currentHeaders = [] then
        { s with currentHeaders := parseTableRow line }
      -- table-syntax rows once the header is parsed are data rows
      else if s.inDataSection ∧ s.headerParsed ∧ isTableRow line then
        match s.currentFacet with
        | some facet =>
          { s with doc := addRowToFacet s.doc facet (buildRow s.currentHeaders (parseTableRow line)) }
        | none => s
      else s

/-- The initial loop state: the all-empty document, no facet, no headers. -/
def initParseState : ParseState :=
  { doc := emptyTqlDocument, currentFacet := none, currentHeaders := [],
    inDataSection := false, headerParsed := false }

/-- `parseTqlDocumentFromString(content)`: run the line loop over
`content.split('\n')` and return the accumulated document. -/
def parseTqlDocumentFromString (content : String) : TqlDocument :=
  ((splitLines content).foldl parseStep initParseState).doc

/-- Match `/^#conversation\[(\d+)\]:/` on the first line and return the
declared document count (`Number.parseInt(match[1], 10)`). -/
def conversationHeaderCount (line : String) : Option Nat :=
  match dropLit "#conversation[".data line.data with
  | none => none
  | some rest =>
    let digits := rest.takeWhile Char.isDigit
    if digits.isEmpty then none
    else
      match dropLit "]:".data (rest.dropWhile Char.isDigit) with
      | some _ => some (digitsToNat digits)
      | none => none

/-- Match `/^(#document\[\+\d+\]):/` and return the captured key. -/
def docHeaderKey (line : String) : Option String :=
  match dropLit "#document[+".data line.data with
  | none => none
  | some rest =>
    let digits := rest.takeWhile Char.isDigit
    if digits.isEmpty then none
    else
      match rest.dropWhile Char.isDigit with
      | ']' :: ':' :: _ => some ("#document[+" ++ String.mk digits ++ "]")
      | _ => none

/-- Match `/^(\$diff\[\+\d+→\+\d+\]):/` and return the captured key. -/
def diffHeaderKey (line : String) : Option String :=
  match dropLit "$diff[+".data line.data with
  | none => none
  | some rest =>
    let d1 := rest.takeWhile Char.isDigit
    if d1.isEmpty then none
    else
      match dropLit "→+".data (rest.dropWhile Char.isDigit) with
      | none => none
      | some rest2 =>
        let d2 := rest2.takeWhile Char.isDigit
        if d2.isEmpty then none
        else
          match rest2.dropWhile Char.isDigit with
          | ']' :: ':' :: _ => some ("$diff[+" ++ String.mk d1 ++ "→+" ++ String.mk d2 ++ "]")
          | _ => none

/-- `addItemToSequence`: a `#document...` key pushes a parsed document
entry; a `$diff...` key is skipped — the diff body is discarded, not
parsed back into structured form (the push is commented out in the
source). -/
def addItemToSequence (seq : List SequenceItem) (key : String) (content : String) :
    List SequenceItem :=
  if jsStartsWith key "#document" then
    seq ++ [.document key (parseTqlDocumentFromString content)]
  else if jsStartsWith key "$diff" then
    seq
  else seq

/-- `if (currentItemKey && currentItemContent.length > 0) addItemToSequence(...)`. -/
def flushItem (seq : List SequenceItem) (key : Option String) (content : List String) :
    List SequenceItem :=
  match key with
  | some k => if content ≠ [] then addItemToSequence seq k (jsJoin "\n" content) else seq
  | none => seq

/-- The scan over `lines[1..]` of `parseTqlConversationFromString`:
split the body at `#document[+n]:` and `$diff[+i→+j]:` headers,
collecting each section's lines and flushing on every boundary
(and once after the loop). -/
def scanItems : List String → Option String → List String → List SequenceItem →
    List SequenceItem
  | [], key, content, seq => flushItem seq key content
  | line :: rest, key, content, seq =>
    match docHeaderKey line with
    | some k => scanItems rest (some k) [] (flushItem seq key content)
    | none =>
      match diffHeaderKey line with
      | some k => scanItems rest (some k) [] (flushItem seq key content)
      | none =>
        match key with
        | some _ => scanItems rest key (content ++ [line]) seq
        | none => scanItems rest none content seq

/-- `parseTqlConversationFromString(content)`.  A missing conversation
header on the first line triggers legacy single-document parsing of the
whole content; otherwise the body is scanned into sequence items and the
declared document count is validated against the number of document
entries found (a mismatch throws — modelled as `Except.error` carrying
the thrown message; the spec names this failure `FormatError`). -/
def parseTqlConversationFromString (content : String) : Except String TqlConversation :=
  let lines := splitLines content
  match conversationHeaderCount (lines.headD "") with
  | none =>
    .ok ⟨[.document "#document[+0]" (parseTqlDocumentFromString content)]⟩
  | some expectedDocCount =>
    let sequence := scanItems lines.tail none [] []
    let actualDocCount :=
      (sequence.filter fun item => jsStartsWith item.key "#document").length
    if actualDocCount ≠ expectedDocCount then
      .error ("Conversation header indicates " ++ Nat.repr expectedDocCount ++
              " documents, but found " ++ Nat.repr actualDocCount)
    else
      .ok ⟨sequence⟩

/-! ## Row operations and diff engine

The row-operation functions (`src/lib/operations/crud.ts`) and the diff
engine (`src/lib/operations/diff.ts`) are code of this repository that is
not under `src/` — only their callers (`test-update-insert.mjs`, the
command files) and documentation (`DIFF_EXAMPLE.md`) are.  They are
modelled from the spec below. -/

/-- Read the named facet's row list (the nine known facet names). -/
def getFacetRows (doc : TqlDocument) (facet : String) : List Row :=
  if facet = "table" then doc.table
  else if facet = "meaning" then doc.meaning
  else if facet = "structure" then doc.structure'
  else if facet = "ambiguity" then doc.ambiguity
  else if facet = "intent" then doc.intent
  else if facet = "context" then doc.context
  else if facet = "query" then doc.query
  else if facet = "tasks" then doc.tasks
  else if facet = "score" then doc.score
  else []

/-- Replace the named facet's row list. -/
def setFacetRows (doc : TqlDocument) (facet : String) (rows : List Row) : TqlDocument :=
  if facet = "table" then { doc with table := rows }
  else if facet = "meaning" then { doc with meaning := rows }
  else if facet = "structure" then { doc with structure' := rows }
  else if facet = "ambiguity" then { doc with ambiguity := rows }
  else if facet = "intent" then { doc with intent := rows }
  else if facet = "context" then { doc with context := rows }
  else if facet = "query" then { doc with query := rows }
  else if facet = "tasks" then { doc with tasks := rows }
  else if facet = "score" then { doc with score := rows }
  else doc

/-- Merge the patch's fields into a row, one JS assignment per patch
field; fields of the row not named in the patch are untouched. -/
def mergeRow (row patch : Row) : Row :=
  patch.foldl (fun r p => setField r p.1 p.2) row

/-- Modelled from the spec: `updateRowInMemory(doc, facet, index, patch)`
of `src/lib/operations/crud.ts` (not under `src/`).  1-based `index` into
the facet's row collection; merges `patch` fields into the existing row at
that position; fails with `IndexError` if `index` is outside
`[1, rowCount]`. -/
def updateRowInMemory (doc : TqlDocument) (facet : String) (index : Nat) (patch : Row) :
    Except String TqlDocument :=
  let rows := getFacetRows doc facet
  if 1 ≤ index ∧ index ≤ rows.length then
    .ok (setFacetRows doc facet (rows.set (index - 1) (mergeRow (rows.getD (index - 1) []) patch)))
  else
    .error "IndexError: row index out of range"

/-- Modelled from the spec: `insertRowInMemory(doc, facet, row)` of
`src/lib/operations/crud.ts` (not under `src/`).  Appends `row` to the
end of the facet's row collection. -/
def insertRowInMemory (doc : TqlDocument) (facet : String) (row : Row) : TqlDocument :=
  setFacetRows doc facet (getFacetRows doc facet ++ [row])

/-- Modelled from the spec: the fresh base document seeded by
`generateTqlDocument` (`src/lib/generators`, not under `src/`) from a CSV
reader's `{headers, rows}` structure — the tabular data seeds the
`table` facet, each data row becoming a row keyed by the headers. -/
def generateTqlDocument (headers : List String) (rows : List (List String)) : TqlDocument :=
  { emptyTqlDocument with table := rows.map fun cells => rowPairs headers cells }

/-- Per-row change classification of the diff engine. -/
inductive ChangeType where
  | added
  | removed
  | modified
  | unchanged
deriving DecidableEq, Repr

/-- One row change record `{index, changeType, before, after}`. -/
structure RowChange where
  index : Nat
  changeType : ChangeType
  before : Option Row
  after : Option Row
deriving DecidableEq, Repr

/-- Per-facet diff: facet name, facet-level classification, row changes. -/
structure FacetDiff where
  facet : String
  changeType : ChangeType
  rowChanges : List RowChange
deriving DecidableEq, Repr

/-- The structured diff result with its summary counts. -/
structure TqlDiff where
  facets : List FacetDiff
  facetsModified : Nat
  facetsUnchanged : Nat
  totalRowChanges : Nat
deriving DecidableEq, Repr

/-- Modelled from the spec: positional row comparison of the diff engine
(`src/lib/operations/diff.ts`, not under `src/`).  Rows are compared by
1-based index: present in both and equal → `unchanged`; present in both
and different → `modified` (both rows retained); only in `before` →
`removed`; only in `after` → `added`. -/
def diffRows (b a : List Row) : List RowChange :=
  (List.range (max b.length a.length)).map fun i =>
    match b[i]?, a[i]? with
    | some rb, some ra =>
      if rb = ra then ⟨i + 1, .unchanged, some rb, some ra⟩
      else ⟨i + 1, .modified, some rb, some ra⟩
    | some rb, none => ⟨i + 1, .removed, some rb, none⟩
    | none, some ra => ⟨i + 1, .added, none, some ra⟩
    | none, none => ⟨i + 1, .unchanged, none, none⟩

/-- Modelled from the spec: facet-level classification — `unchanged` when
no row changed, else `added`/`removed` when the facet went from/to fully
empty, else `modified`. -/
def facetChange (b a : List Row) (changes : List RowChange) : ChangeType :=
  if changes.all fun c => c.changeType = ChangeType.unchanged then .unchanged
  else if b.isEmpty then .added
  else if a.isEmpty then .removed
  else .modified

/-- Modelled from the spec: diff of one semantic facet. -/
def diffFacet (name : String) (b a : List Row) : FacetDiff :=
  let changes := diffRows b a
  ⟨name, facetChange b a changes, changes⟩

/-- Modelled from the spec: `diffTqlDocuments(before, after)` of
`src/lib/operations/diff.ts` (not under `src/`).  Checked precondition:
the `table` facet's rows must be structurally identical between the two
documents, otherwise the diff fails with
`"DIFF operations can only be performed on matching datasets"`
(the spec's `DatasetMismatchError`) and computes nothing further; on
success the eight semantic facets are compared positionally and the
summary counts are filled in. -/
def diffTqlDocuments (before after : TqlDocument) : Except String TqlDiff :=
  if before.table ≠ after.table then
    .error "DIFF operations can only be performed on matching datasets"
  else
    let fds :=
      [diffFacet "meaning" before.meaning after.meaning,
       diffFacet "structure" before.structure' after.structure',
       diffFacet "ambiguity" before.ambiguity after.ambiguity,
       diffFacet "intent" before.intent after.intent,
       diffFacet "context" before.context after.context,
       diffFacet "query" before.query after.query,
       diffFacet "tasks" before.tasks after.tasks,
       diffFacet "score" before.score after.score]
    .ok ⟨fds,
         (fds.filter fun f => f.changeType ≠ ChangeType.unchanged).length,
         (fds.filter fun f => f.changeType = ChangeType.unchanged).length,
         (fds.map fun f =>
           (f.rowChanges.filter fun c => c.changeType ≠ ChangeType.unchanged).length).foldl
           (· + ·) 0⟩

/-! ## Concrete inputs used to instantiate the spec claims -/

/-- The number of `#document` entries found in a conversation body scan
(the `actualDocCount` computed by `parseTqlConversationFromString`). -/
def documentsFound (content : String) : Nat :=
  ((scanItems (splitLines content).tail none [] []).filter fun item =>
    jsStartsWith item.key "#document").length

/-- A fresh base document generated from a one-column, one-row table. -/
def c1BaseDoc : TqlDocument := generateTqlDocument ["id"] [["1"]]

/-- The base document after a row operation inserting an all-empty
`context` row: its rendered line consists only of pipes and spaces. -/
def c1BadDoc : TqlDocument :=
  insertRowInMemory c1BaseDoc "context" [("index", ""), ("key", ""), ("value", "")]

/-- The base document after a row operation inserting a visible,
well-formed `context` row. -/
def c1GoodDoc : TqlDocument :=
  insertRowInMemory c1BaseDoc "context" [("index", "1"), ("key", "user_timezone"), ("value", "MST")]

/-- A document whose `table` facet holds the row `{id: "1"}`. -/
def c2Before : TqlDocument := { emptyTqlDocument with table := [[("id", "1")]] }

/-- A document whose `table` facet row differs from `c2Before`'s in the
`id` cell. -/
def c2After : TqlDocument := { emptyTqlDocument with table := [[("id", "2")]] }

/-- A conversation text declaring `#conversation[2]:` but containing a
single `#document[+n]:` section. -/
def c3Text : String := "#conversation[2]:\n#document[+0]:\n@context[0]:"

/-- A document text whose first line does not match the conversation
header pattern. -/
def c4Text : String :=
  "@context[0]:\n| index | key | value |\n|-------|-----|-------|"

/-- A conversation text with two document sections and a `$diff` section
between them. -/
def c6Text : String :=
  "#conversation[2]:\n#document[+0]:\n@meaning[0]:\n\n$diff[+0→+1]:\nsome diff body\n#document[+1]:\n@meaning[0]:"

/-- The conversation `c6Text` parses to: the two document entries only —
no entry for the `$diff` section survives. -/
def c6Conv : TqlConversation :=
  ⟨[SequenceItem.document "#document[+0]" emptyTqlDocument,
    SequenceItem.document "#document[+1]" emptyTqlDocument]⟩

/-- A document text whose only facet header names the unknown facet
`custom`, followed by a full table with one data row. -/
def c7Text : String := "@custom[1]:\n| a | b |\n|---|---|\n| 1 | 2 |"

/-- The patch of the C8 scenario: set the `definition` field. -/
def c8Patch : Row := [("definition", "Unique identifier")]

/-- The C8 scenario document after inserting `{column:"id", definition:""}`
into the empty `meaning` facet. -/
def c8Inserted : TqlDocument :=
  insertRowInMemory emptyTqlDocument "meaning" [("column", "id"), ("definition", "")]

/-- A document text whose would-be facet header `@meaning[2:` is
malformed (missing the closing bracket), followed by table-syntax
lines. -/
def c9Text : String := "@meaning[2:\n| index | column |\n|-------|--------|\n| 1 | id |"

/-- A `context` row whose values for all three rendered columns are
empty strings. -/
def c10Row : Row := [("index", ""), ("key", ""), ("value", "")]

/-- A document whose `context` facet holds the all-empty row `c10Row`
and a second row with a `|` inside its `value` cell. -/
def c10Doc : TqlDocument :=
  { emptyTqlDocument with context := [c10Row, [("index", ""), ("key", ""), ("value", "|x")]] }

/-! ## Basic facts about the string primitives -/

theorem mk_data (s : String) : String.mk s.data = s := rfl

theorem string_eq_empty_iff {s : String} : s = "" ↔ s.data = [] := by
  constructor
  · rintro rfl; rfl
  · intro h; cases s; simp_all

theorem splitCh_cons (c x : Char) (xs : List Char) :
    splitCh c (x :: xs)
      = match splitCh c xs with
        | [] => [[]]
        | y :: ys => if x = c then [] :: y :: ys else (x :: y) :: ys := rfl

theorem splitCh_ne_nil (c : Char) (l : List Char) : splitCh c l ≠ [] := by
  induction l with
  | nil => simp [splitCh]
  | cons x xs ih =>
    rcases h : splitCh c xs with _ | ⟨y, ys⟩
    · exact absurd h ih
    · rw [splitCh_cons, h]
      show (if x = c then [] :: y :: ys else (x :: y) :: ys) ≠ []
      split <;> simp

theorem splitCh_of_not_mem {c : Char} {l : List Char} (h : c ∉ l) : splitCh c l = [l] := by
  induction l with
  | nil => rfl
  | cons x xs ih =>
    simp only [List.mem_cons, not_or] at h
    rw [splitCh_cons, ih h.2]
    show (if x = c then [] :: xs :: [] else (x :: xs) :: []) = [x :: xs]
    rw [if_neg (Ne.symm h.1)]

theorem splitCh_append_cons (c : Char) (a b : List Char) :
    splitCh c (a ++ c :: b) = splitCh c a ++ splitCh c b := by
  induction a with
  | nil =>
    rcases h : splitCh c b with _ | ⟨y, ys⟩
    · exact absurd h (splitCh_ne_nil c b)
    · rw [List.nil_append, splitCh_cons, h]
      show (if c = c then [] :: y :: ys else (c :: y) :: ys) = [[]] ++ y :: ys
      rw [if_pos rfl]
      rfl
  | cons x a' ih =>
    rcases h : splitCh c a' with _ | ⟨y, ys⟩
    · exact absurd h (splitCh_ne_nil c a')
    · have hmid : splitCh c (a' ++ c :: b) = y :: (ys ++ splitCh c b) := by
        rw [ih, h]; rfl
      rw [List.cons_append, splitCh_cons, hmid, splitCh_cons, h]
      show (if x = c then [] :: y :: (ys ++ splitCh c b) else (x :: y) :: (ys ++ splitCh c b))
          = (if x = c then [] :: y :: ys else (x :: y) :: ys) ++ splitCh c b
      split <;> simp

theorem splitLines_append_newline (A B : String) :
    splitLines (A ++ "\n" ++ B) = splitLines A ++ splitLines B := by
  unfold splitLines
  have : (A ++ "\n" ++ B).data = A.data ++ '\n' :: B.data := by
    simp [String.data_append]
  rw [this, splitCh_append_cons, List.map_append]

theorem splitLines_no_newline {A : String} (h : '\n' ∉ A.data) : splitLines A = [A] := by
  unfold splitLines
  rw [splitCh_of_not_mem h]
  simp [mk_data]

theorem splitLines_join {parts : List String} (hne : parts ≠ [])
    (h : ∀ p ∈ parts, '\n' ∉ p.data) : splitLines (jsJoin "\n" parts) = parts := by
  induction parts with
  | nil => exact absurd rfl hne
  | cons p rest ih =>
    cases rest with
    | nil => simpa [jsJoin] using splitLines_no_newline (h p (by simp))
    | cons q rest' =>
      have step : jsJoin "\n" (p :: q :: rest') = p ++ "\n" ++ jsJoin "\n" (q :: rest') := rfl
      rw [step, splitLines_append_newline, splitLines_no_newline (h p (by simp)),
        ih (by simp) (fun x hx => h x (by simp [hx]))]
      rfl

theorem padEnd_data (s : String) (w : Nat) :
    (padEnd s w).data = s.data ++ List.replicate (w - s.length) ' ' := by
  simp [padEnd, String.data_append]

theorem trimChars_of_ends {x y : Char} {m : List Char} (hx : isWs x = false)
    (hy : isWs y = false) : trimChars (x :: (m ++ [y])) = x :: (m ++ [y]) := by
  unfold trimChars
  rw [List.dropWhile_cons_of_neg (by simp [hx])]
  have : (x :: (m ++ [y])).reverse = y :: (m.reverse ++ [x]) := by simp
  rw [this, List.dropWhile_cons_of_neg (by simp [hy])]
  simp

theorem jsTrim_of_ends {s : String} {x y : Char} {m : List Char}
    (hdata : s.data = x :: (m ++ [y])) (hx : isWs x = false) (hy : isWs y = false) :
    jsTrim s = s := by
  unfold jsTrim
  rw [hdata, trimChars_of_ends hx hy, ← hdata, mk_data]

theorem jsTrim_empty : jsTrim "" = "" := rfl

/-- A string is trim-stable when it has no leading and no trailing
whitespace. -/
def trimStable (v : String) : Prop :=
  v.data.dropWhile isWs = v.data ∧ v.data.reverse.dropWhile isWs = v.data.reverse

instance (v : String) : Decidable (trimStable v) := by unfold trimStable; infer_instance

theorem head_not_ws_of_dropWhile_self {l : List Char} {x : Char} {xs : List Char}
    (h1 : l.dropWhile isWs = l) (hd : l = x :: xs) : isWs x = false := by
  by_contra hxx
  rw [Bool.not_eq_false] at hxx
  rw [hd, List.dropWhile_cons_of_pos hxx] at h1
  have hlen := congrArg List.length h1
  have hle := (List.dropWhile_sublist (l := xs) isWs).length_le
  simp only [List.length_cons] at hlen
  omega

theorem trimChars_spaces_pad {v : String} (hv : trimStable v) (a b : Nat) :
    trimChars (List.replicate a ' ' ++ v.data ++ List.replicate b ' ') = v.data := by
  obtain ⟨h1, h2⟩ := hv
  have hwsa : ∀ u ∈ List.replicate a ' ', isWs u = true := by
    intro u hu; rw [List.eq_of_mem_replicate hu]; rfl
  have hwsb : ∀ u ∈ List.replicate b ' ', isWs u = true := by
    intro u hu; rw [List.eq_of_mem_replicate hu]; rfl
  unfold trimChars
  rw [List.append_assoc, List.dropWhile_append_of_pos hwsa]
  rcases hd : v.data with _ | ⟨x, xs⟩
  · rw [List.nil_append, List.dropWhile_eq_nil_iff.mpr hwsb]
    simp
  · have hx : isWs x = false := head_not_ws_of_dropWhile_self h1 hd
    rw [← hd]
    have hstep : (v.data ++ List.replicate b ' ').dropWhile isWs
        = v.data ++ List.replicate b ' ' := by
      rw [hd, List.cons_append, List.dropWhile_cons_of_neg (by simp [hx])]
    rw [hstep]
    have hrev : (v.data ++ List.replicate b ' ').reverse
        = List.replicate b ' ' ++ v.data.reverse := by simp
    rw [hrev, List.dropWhile_append_of_pos hwsb, h2]
    simp

/-! ## The decimal rendering of a `Nat` is a nonempty digit run -/

theorem digitChar_isDigit {m : Nat} (h : m < 10) : (Nat.digitChar m).isDigit = true := by
  interval_cases m <;> decide

theorem toDigitsCore_digits (fuel n : Nat) (ds : List Char) (h : ∀ c ∈ ds, c.isDigit = true) :
    ∀ c ∈ Nat.toDigitsCore 10 fuel n ds, c.isDigit = true := by
  induction fuel generalizing n ds with
  | zero => simpa [Nat.toDigitsCore] using h
  | succ fuel ih =>
    have hd : (Nat.digitChar (n % 10)).isDigit = true :=
      digitChar_isDigit (Nat.mod_lt _ (by omega))
    have hcons : ∀ c ∈ Nat.digitChar (n % 10) :: ds, c.isDigit = true := by
      intro c hc
      rcases List.mem_cons.mp hc with rfl | hc'
      · exact hd
      · exact h c hc'
    simp only [Nat.toDigitsCore]
    split
    · exact hcons
    · exact ih _ _ hcons

theorem toDigitsCore_length_le (fuel n : Nat) (ds : List Char) :
    ds.length ≤ (Nat.toDigitsCore 10 fuel n ds).length := by
  induction fuel generalizing n ds with
  | zero => simp [Nat.toDigitsCore]
  | succ fuel ih =>
    simp only [Nat.toDigitsCore]
    split
    · simp
    · exact le_trans (by simp) (ih (n / 10) (Nat.digitChar (n % 10) :: ds))

theorem repr_data_digits (n : Nat) :
    (Nat.repr n).data ≠ [] ∧ ∀ c ∈ (Nat.repr n).data, c.isDigit = true := by
  have hrepr : (Nat.repr n).data = Nat.toDigitsCore 10 (n + 1) n [] := rfl
  constructor
  · rw [hrepr]
    intro hcontra
    have h1 := toDigitsCore_length_le n (n / 10) (Nat.digitChar (n % 10) :: [])
    have : Nat.toDigitsCore 10 (n + 1) n [] = [] → False := by
      intro he
      simp only [Nat.toDigitsCore] at he
      split at he
      · exact absurd he (by simp)
      · rw [he] at h1; simp at h1
    exact this hcontra
  · rw [hrepr]
    exact toDigitsCore_digits (n + 1) n [] (by simp)

theorem isDigit_props {c : Char} (h : c.isDigit = true) :
    sepClass c = false ∧ isWs c = false ∧ c ≠ '\n' ∧ isWordChar c = true := by
  have hne : ∀ d : Char, d.isDigit = false → c ≠ d := by
    intro d hd he
    subst he
    rw [h] at hd
    cases hd
  have h1 : c ≠ '-' := hne '-' (by decide)
  have h2 : c ≠ '|' := hne '|' (by decide)
  have h3 : c ≠ ' ' := hne ' ' (by decide)
  have h4 : c ≠ '\t' := hne '\t' (by decide)
  have h5 : c ≠ '\r' := hne '\r' (by decide)
  have h6 : c ≠ '\n' := hne '\n' (by decide)
  have hws : isWs c = false := by
    simp only [isWs, Char.isWhitespace]
    simp [h3, h4, h5, h6]
  refine ⟨?_, hws, h6, ?_⟩
  · simp only [sepClass, hws]
    simp [h1, h2]
  · simp [isWordChar, Char.isAlphanum, h]

/-! ## Classification facts about rendered and parsed lines -/

theorem parseFacetHeader_not_at : ∀ {line : String}, line.data.head? ≠ some '@' →
    parseFacetHeader line = none := by
  intro line h
  unfold parseFacetHeader
  rcases hd : line.data with _ | ⟨c, rest⟩
  · rfl
  · rw [hd] at h
    simp only [List.head?_cons, ne_eq, Option.some.injEq] at h
    simp [h]

theorem isSeparatorRow_all_sepClass {line : String} (h : isSeparatorRow line = true) :
    ∀ c ∈ line.data, sepClass c = true := by
  unfold isSeparatorRow at h
  rcases hd : line.data with _ | ⟨c, rest⟩
  · simp [hd] at h
  · rw [hd] at h
    simp only [Bool.and_eq_true, beq_iff_eq, decide_eq_true_eq] at h
    obtain ⟨⟨⟨hc, hlen⟩, hall⟩, hlast⟩ := h
    subst hc
    intro u hu
    rcases List.mem_cons.mp hu with rfl | hu'
    · rfl
    · have hrest : rest ≠ [] := by intro he; rw [he] at hlen; simp at hlen
      have hsplit := List.dropLast_append_getLast hrest
      rw [← hsplit] at hu'
      rcases List.mem_append.mp hu' with hmid | hlast'
      · exact List.all_eq_true.mp hall u hmid
      · have : u = rest.getLast hrest := by simpa using hlast'
        subst this
        rw [List.getLast?_eq_getLast rest hrest] at hlast
        simp only [Option.some.injEq] at hlast
        rw [hlast]
        rfl

theorem isSeparatorRow_false_of_mem {line : String} {c : Char} (hc : c ∈ line.data)
    (hclass : sepClass c = false) : isSeparatorRow line = false := by
  by_contra h
  rw [Bool.not_eq_false] at h
  have := isSeparatorRow_all_sepClass h c hc
  rw [hclass] at this
  cases this

theorem isSeparatorRow_of_shape {line : String} {mid : List Char}
    (hd : line.data = '|' :: (mid ++ ['|'])) (hmid : mid ≠ [])
    (hall : ∀ c ∈ mid, sepClass c = true) : isSeparatorRow line = true := by
  unfold isSeparatorRow
  rw [hd]
  have hlen : 1 ≤ mid.length := by
    rcases mid with _ | ⟨m, ms⟩
    · exact absurd rfl hmid
    · simp
  have h2 : (mid ++ ['|']).dropLast = mid := by simp
  have h3 : (mid ++ ['|']).getLast? = some '|' := by simp
  show (('|' == '|') && decide (2 ≤ (mid ++ ['|']).length)
      && (mid ++ ['|']).dropLast.all sepClass
      && ((mid ++ ['|']).getLast? == some '|')) = true
  rw [h2, h3]
  simp [List.all_eq_true, hlen]
  exact hall

theorem isSeparatorRow_ne_empty {line : String} (h : isSeparatorRow line = true) :
    line ≠ "" := by
  intro he
  subst he
  exact absurd h (by decide)

theorem isTableRow_of_head {line : String} {rest : List Char}
    (hd : line.data = '|' :: rest) : isTableRow line = true := by
  unfold isTableRow
  rw [hd]
  simp

theorem mem_jsJoin_of_mem {sep : String} {parts : List String} {p : String} {c : Char}
    (hp : p ∈ parts) (hc : c ∈ p.data) : c ∈ (jsJoin sep parts).data := by
  induction parts with
  | nil => cases hp
  | cons q rest ih =>
    cases rest with
    | nil =>
      rw [List.mem_singleton] at hp
      subst hp
      simpa [jsJoin] using hc
    | cons r rest' =>
      have hstep : jsJoin sep (q :: r :: rest') = q ++ sep ++ jsJoin sep (r :: rest') := rfl
      rw [hstep]
      rcases List.mem_cons.mp hp with rfl | hp'
      · simp [String.data_append, hc]
      · simp [String.data_append, ih hp']

theorem mem_of_mem_jsJoin {sep : String} {parts : List String} {c : Char}
    (hc : c ∈ (jsJoin sep parts).data) : c ∈ sep.data ∨ ∃ p ∈ parts, c ∈ p.data := by
  induction parts with
  | nil => cases hc
  | cons q rest ih =>
    cases rest with
    | nil =>
      right
      exact ⟨q, by simp, by simpa [jsJoin] using hc⟩
    | cons r rest' =>
      have hstep : jsJoin sep (q :: r :: rest') = q ++ sep ++ jsJoin sep (r :: rest') := rfl
      rw [hstep] at hc
      simp only [String.data_append, List.mem_append] at hc
      rcases hc with (hq | hs) | hj
      · exact Or.inr ⟨q, by simp, hq⟩
      · exact Or.inl hs
      · rcases ih hj with hs | ⟨p, hp, hcp⟩
        · exact Or.inl hs
        · exact Or.inr ⟨p, by simp [hp], hcp⟩

theorem mem_zipWith_padEnd {vs : List String} {ws : List Nat} {v : String}
    (hlen : vs.length = ws.length) (hv : v ∈ vs) :
    ∃ w, padEnd v w ∈ List.zipWith padEnd vs ws := by
  induction vs generalizing ws with
  | nil => cases hv
  | cons q rest ih =>
    rcases ws with _ | ⟨w, ws'⟩
    · simp at hlen
    · rcases List.mem_cons.mp hv with rfl | hv'
      · exact ⟨w, by simp⟩
      · obtain ⟨w', hw'⟩ := ih (by simpa using hlen) hv'
        exact ⟨w', by simp [hw']⟩

/-- The facet header line `@name[count]:` parses back to the facet name,
for any count, when the name is a nonempty `\w` run. -/
theorem parseFacetHeader_header {name : String} (n : Nat)
    (h1 : name.data ≠ []) (h2 : ∀ c ∈ name.data, isWordChar c = true) :
    parseFacetHeader (facetHeaderLine name n) = some name := by
  obtain ⟨hd1, hd2⟩ := repr_data_digits n
  have hdata : (facetHeaderLine name n).data
      = '@' :: (name.data ++ '[' :: ((Nat.repr n).data ++ [']', ':'])) := by
    simp [facetHeaderLine, String.data_append]
  have htw : (name.data ++ '[' :: ((Nat.repr n).data ++ [']', ':'])).takeWhile isWordChar
      = name.data := by
    rw [List.takeWhile_append_of_pos h2, List.takeWhile_cons_of_neg (by decide)]
    simp
  have hdw : (name.data ++ '[' :: ((Nat.repr n).data ++ [']', ':'])).dropWhile isWordChar
      = '[' :: ((Nat.repr n).data ++ [']', ':']) := by
    rw [List.dropWhile_append_of_pos h2, List.dropWhile_cons_of_neg (by decide)]
  have hdg : ∀ c ∈ (Nat.repr n).data, Char.isDigit c = true := hd2
  have htwd : (((Nat.repr n).data ++ [']', ':'])).takeWhile Char.isDigit = (Nat.repr n).data := by
    rw [List.takeWhile_append_of_pos hdg, List.takeWhile_cons_of_neg (by decide)]
    simp
  have hdwd : (((Nat.repr n).data ++ [']', ':'])).dropWhile Char.isDigit = [']', ':'] := by
    rw [List.dropWhile_append_of_pos hdg, List.dropWhile_cons_of_neg (by decide)]
  have hne1 : name.data.isEmpty = false := by
    cases hnd : name.data with
    | nil => exact absurd hnd h1
    | cons a l => rfl
  have hne2 : (Nat.repr n).data.isEmpty = false := by
    cases hh : (Nat.repr n).data with
    | nil => exact absurd hh hd1
    | cons a l => rfl
  unfold parseFacetHeader
  rw [hdata]
  simp only [htw, hdw, htwd, hdwd, hne1, hne2, if_pos rfl, Bool.false_eq_true,
    if_false, mk_data]
  simp [mk_data]

theorem renderCellsLine_data (cells : List String) (widths : List Nat) :
    (renderCellsLine cells widths).data
      = '|' :: ((' ' :: (jsJoin " | " (List.zipWith padEnd cells widths)).data ++ [' ']) ++ ['|']) := by
  simp [renderCellsLine, String.data_append]

theorem renderCellsLine_trim (cells : List String) (widths : List Nat) :
    jsTrim (renderCellsLine cells widths) = renderCellsLine cells widths :=
  jsTrim_of_ends (renderCellsLine_data cells widths) (by decide) (by decide)

theorem renderCellsLine_ne_empty (cells : List String) (widths : List Nat) :
    renderCellsLine cells widths ≠ "" := by
  intro h
  have := congrArg String.data h
  rw [renderCellsLine_data] at this
  cases this

theorem renderCellsLine_isTableRow (cells : List String) (widths : List Nat) :
    isTableRow (renderCellsLine cells widths) = true :=
  isTableRow_of_head (renderCellsLine_data cells widths)

theorem renderCellsLine_no_facetHeader (cells : List String) (widths : List Nat) :
    parseFacetHeader (renderCellsLine cells widths) = none := by
  apply parseFacetHeader_not_at
  rw [renderCellsLine_data]
  simp

theorem renderSeparator_data (widths : List Nat) :
    (renderSeparator widths).data
      = '|' :: ((jsJoin "|" (widths.map fun w => String.mk (List.replicate (w + 2) '-'))).data ++ ['|']) := by
  simp [renderSeparator, String.data_append]

theorem renderSeparator_is_separator {widths : List Nat} (hne : widths ≠ []) :
    isSeparatorRow (renderSeparator widths) = true := by
  apply isSeparatorRow_of_shape (renderSeparator_data widths)
  · rcases widths with _ | ⟨w, ws'⟩
    · exact absurd rfl hne
    · rcases ws' with _ | ⟨w2, ws''⟩
      · simp [jsJoin]
      · have hstep : jsJoin "|" ((w :: w2 :: ws'').map fun u => String.mk (List.replicate (u + 2) '-'))
            = String.mk (List.replicate (w + 2) '-') ++ "|"
              ++ jsJoin "|" ((w2 :: ws'').map fun u => String.mk (List.replicate (u + 2) '-')) := rfl
        rw [hstep]
        simp [String.data_append]
  · intro c hc
    rcases mem_of_mem_jsJoin hc with hs | ⟨p, hp, hcp⟩
    · rcases List.mem_singleton.mp (by simpa using hs) with rfl
      rfl
    · simp only [List.mem_map] at hp
      obtain ⟨w, _, rfl⟩ := hp
      have : c = '-' := by simpa using hcp
      subst this
      rfl

theorem renderSeparator_trim (widths : List Nat) :
    jsTrim (renderSeparator widths) = renderSeparator widths :=
  jsTrim_of_ends (renderSeparator_data widths) (by decide) (by decide)

theorem renderSeparator_no_facetHeader (widths : List Nat) :
    parseFacetHeader (renderSeparator widths) = none := by
  apply parseFacetHeader_not_at
  rw [renderSeparator_data]
  simp

/-! ## Rows: reading, building and recovering them -/

theorem Row.get_cons (p : String × String) (r : Row) (k : String) :
    Row.get (p :: r) k = if p.1 = k then p.2 else Row.get r k := by
  by_cases h : p.1 = k <;> simp [Row.get, List.find?_cons, h]

theorem setField_fresh {r : Row} {k : String} (h : ∀ p ∈ r, p.1 ≠ k) (v : String) :
    setField r k v = r ++ [(k, v)] := by
  unfold setField
  rw [if_neg]
  simp only [List.any_eq_true, beq_iff_eq, not_exists]
  intro p
  simp only [not_and]
  intro hp
  exact h p hp

theorem foldl_setField_fresh (kvs : List (String × String)) (acc : Row)
    (hnd : (kvs.map Prod.fst).Nodup) (hfresh : ∀ p ∈ kvs, ∀ q ∈ acc, q.1 ≠ p.1) :
    kvs.foldl (fun r p => setField r p.1 p.2) acc = acc ++ kvs := by
  induction kvs generalizing acc with
  | nil => simp
  | cons p rest ih =>
    have hstep : setField acc p.1 p.2 = acc ++ [p] := by
      rw [setField_fresh (fun q hq => hfresh p (by simp) q hq) p.2]

    rw [List.foldl_cons, hstep, ih (acc ++ [p])]
    · simp
    · simpa using hnd.of_cons
    · intro q hq u hu
      rcases List.mem_append.mp hu with hu' | hu'
      · exact hfresh q (by simp [hq]) u hu'
      · rw [List.mem_singleton] at hu'
        subst hu'
        simp only [List.map_cons, List.nodup_cons] at hnd
        intro he
        exact hnd.1 (he ▸ List.mem_map_of_mem Prod.fst hq)

theorem rowPairs_map_fst : ∀ (headers cells : List String),
    (rowPairs headers cells).map Prod.fst = headers
  | [], _ => rfl
  | h :: hs, [] => by simp [rowPairs, rowPairs_map_fst hs []]
  | h :: hs, c :: cs => by simp [rowPairs, rowPairs_map_fst hs cs]

theorem buildRow_eq_rowPairs {headers cells : List String} (hnd : headers.Nodup) :
    buildRow headers cells = rowPairs headers cells := by
  unfold buildRow
  rw [foldl_setField_fresh _ [] (by rw [rowPairs_map_fst]; exact hnd) (by simp)]
  rfl

theorem rowPairs_map (headers : List String) (f : String → String) :
    rowPairs headers (headers.map f) = headers.map fun h => (h, f h) := by
  induction headers with
  | nil => rfl
  | cons h hs ih => simp [rowPairs, ih]

theorem row_get_self (r : Row) (hnd : (r.map Prod.fst).Nodup) :
    r.map (fun p => (p.1, Row.get r p.1)) = r := by
  induction r with
  | nil => rfl
  | cons p r' ih =>
    simp only [List.map_cons, List.nodup_cons] at hnd
    have hhead : Row.get (p :: r') p.1 = p.2 := by
      rw [Row.get_cons, if_pos rfl]
    have htail : ∀ q ∈ r', Row.get (p :: r') q.1 = Row.get r' q.1 := by
      intro q hq
      rw [Row.get_cons, if_neg]
      intro he
      exact hnd.1 (he ▸ List.mem_map_of_mem Prod.fst hq)
    rw [List.map_cons, hhead]
    have : r'.map (fun q => (q.1, Row.get (p :: r') q.1))
        = r'.map (fun q => (q.1, Row.get r' q.1)) :=
      List.map_congr_left fun q hq => by rw [htail q hq]
    rw [this, ih hnd.2]

theorem rowPairs_get_recover {r : Row} {headers : List String}
    (hkeys : r.map Prod.fst = headers) (hnd : headers.Nodup) :
    rowPairs headers (headers.map (Row.get r)) = r := by
  rw [rowPairs_map]
  subst hkeys
  rw [List.map_map]
  exact row_get_self r hnd

/-- Splitting and trimming the rendered, padded cells recovers the cell
values (trim-stable, pipe-free values). -/
theorem splitCh_cells_recover : ∀ (vs : List String) (ws : List Nat), vs ≠ [] →
    vs.length = ws.length →
    (∀ v ∈ vs, trimStable v ∧ '|' ∉ v.data) →
    (splitCh '|' (' ' :: ((jsJoin " | " (List.zipWith padEnd vs ws)).data ++ [' ']))).map
      (fun cell => String.mk (trimChars cell)) = vs := by
  intro vs
  induction vs with
  | nil => intro ws h; exact absurd rfl h
  | cons v rest ih =>
    intro ws _ hlen hv
    rcases ws with _ | ⟨w, ws'⟩
    · simp at hlen
    · obtain ⟨hvt, hvp⟩ := hv v (by simp)
      rcases rest with _ | ⟨v2, rest'⟩
      · -- single cell
        have hJ : jsJoin " | " (List.zipWith padEnd [v] (w :: ws')) = padEnd v w := rfl
        rw [hJ, padEnd_data]
        have hlist : ' ' :: ((v.data ++ List.replicate (w - v.length) ' ') ++ [' '])
            = List.replicate 1 ' ' ++ v.data ++ List.replicate (w - v.length + 1) ' ' := by
          simp [List.replicate_succ', List.append_assoc]
        rw [hlist, splitCh_of_not_mem (by
          simp only [List.mem_append, List.mem_replicate]
          rintro ((⟨-, h⟩ | h) | ⟨-, h⟩)
          · cases h
          · exact hvp h
          · cases h)]
        simp only [List.map_cons, List.map_nil]
        rw [trimChars_spaces_pad hvt 1 (w - v.length + 1), mk_data]
      · -- at least two cells
        have hJ : jsJoin " | " (List.zipWith padEnd (v :: v2 :: rest') (w :: ws'))
            = padEnd v w ++ " | " ++ jsJoin " | " (List.zipWith padEnd (v2 :: rest') ws') := by
          rcases ws' with _ | ⟨w2, ws''⟩
          · simp at hlen
          · rfl
        set J' := jsJoin " | " (List.zipWith padEnd (v2 :: rest') ws') with hJ'
        have hshape : ' ' :: (((padEnd v w ++ " | " ++ J').data) ++ [' '])
            = (' ' :: ((padEnd v w).data ++ [' '])) ++ '|' :: (' ' :: (J'.data ++ [' '])) := by
          simp [String.data_append, List.append_assoc]
        rw [hJ, hshape, splitCh_append_cons]
        have hsplitA : splitCh '|' (' ' :: ((padEnd v w).data ++ [' ']))
            = [' ' :: ((padEnd v w).data ++ [' '])] := by
          apply splitCh_of_not_mem
          rw [padEnd_data]
          simp only [List.mem_cons, List.mem_append, List.mem_replicate]
          rintro (h | ((h | ⟨-, h⟩) | h))
          · cases h
          · exact hvp h
          · cases h
          · simp at h
        rw [hsplitA]
        simp only [List.map_append, List.map_cons, List.map_nil]
        have htrimA : trimChars (' ' :: ((padEnd v w).data ++ [' '])) = v.data := by
          rw [padEnd_data]
          have : ' ' :: ((v.data ++ List.replicate (w - v.length) ' ') ++ [' '])
              = List.replicate 1 ' ' ++ v.data ++ List.replicate (w - v.length + 1) ' ' := by
            simp [List.replicate_succ', List.append_assoc]
          rw [this, trimChars_spaces_pad hvt 1 (w - v.length + 1)]
        rw [htrimA, mk_data]
        have htail := ih ws' (by simp) (by simpa using hlen)
          (fun u hu => hv u (by simp [hu]))
        rw [← hJ'] at htail
        rw [htail]
        rfl

/-- `parseTableRow` applied to a rendered cells line recovers the cell
values exactly: the padding never leaks into the parsed cells. -/
theorem parseTableRow_renderCellsLine {vs : List String} {ws : List Nat}
    (hne : vs ≠ []) (hlen : vs.length = ws.length)
    (hv : ∀ v ∈ vs, trimStable v ∧ '|' ∉ v.data) :
    parseTableRow (renderCellsLine vs ws) = vs := by
  unfold parseTableRow
  rw [renderCellsLine_trim, renderCellsLine_data]
  have hdrop : (('|' :: ((' ' :: ((jsJoin " | " (List.zipWith padEnd vs ws)).data) ++ [' ']) ++ ['|'])).drop 1).dropLast
      = ' ' :: (((jsJoin " | " (List.zipWith padEnd vs ws)).data) ++ [' ']) := by
    rw [List.drop_one, List.tail_cons]
    exact List.dropLast_concat
  rw [hdrop]
  exact splitCh_cells_recover vs ws hne hlen hv

theorem renderCellsLine_not_separator {vs : List String} {ws : List Nat}
    (hlen : vs.length = ws.length)
    (hvis : ∃ v ∈ vs, ∃ c ∈ v.data, c ≠ '-' ∧ isWs c = false)
    (hnp : ∀ v ∈ vs, '|' ∉ v.data) :
    isSeparatorRow (renderCellsLine vs ws) = false := by
  obtain ⟨v, hvm, c, hc, hdash, hws⟩ := hvis
  have hcpipe : c ≠ '|' := fun he => hnp v hvm (he ▸ hc)
  have hcls : sepClass c = false := by
    simp [sepClass, hws, hdash, hcpipe]
  obtain ⟨w, hw⟩ := mem_zipWith_padEnd hlen hvm
  have hcj : c ∈ (jsJoin " | " (List.zipWith padEnd vs ws)).data :=
    mem_jsJoin_of_mem hw (by rw [padEnd_data]; exact List.mem_append_left _ hc)
  have hcl : c ∈ (renderCellsLine vs ws).data := by
    rw [renderCellsLine_data]
    simp [hcj]
  exact isSeparatorRow_false_of_mem hcl hcls

/-! ## Stepping the parser, one line class at a time -/

theorem parseStep_blank {s : ParseState} {rawLine : String} (h : jsTrim rawLine = "")
    (hh : s.currentHeaders ≠ []) :
    parseStep s rawLine
      = { s with currentHeaders := [], inDataSection := false, headerParsed := false } := by
  unfold parseStep
  rw [h, if_pos ⟨rfl, hh⟩]

theorem parseStep_facetHeader {s : ParseState} {rawLine name : String}
    (hne : jsTrim rawLine ≠ "") (h : parseFacetHeader (jsTrim rawLine) = some name) :
    parseStep s rawLine
      = { s with currentFacet := some name, inDataSection := true,
                 headerParsed := false, currentHeaders := [] } := by
  unfold parseStep
  rw [if_neg (fun hc => hne hc.1), h]

theorem parseStep_skip {s : ParseState} {rawLine : String}
    (h : parseFacetHeader (jsTrim rawLine) = none)
    (hsk : jsTrim rawLine = "" ∨ s.currentFacet = none)
    (hnb : ¬(jsTrim rawLine = "" ∧ s.currentHeaders ≠ [])) :
    parseStep s rawLine = s := by
  unfold parseStep
  rw [if_neg hnb, h]
  exact if_pos hsk

theorem parseStep_separator {s : ParseState} {rawLine : String}
    (h : parseFacetHeader (jsTrim rawLine) = none)
    (hsep : isSeparatorRow (jsTrim rawLine) = true)
    (hne : jsTrim rawLine ≠ "") (hfac : s.currentFacet ≠ none) :
    parseStep s rawLine = { s with headerParsed := true } := by
  unfold parseStep
  rw [if_neg (fun hc => hne hc.1), h, if_neg (by
    rintro (h1 | h2)
    · exact hne h1
    · exact hfac h2), if_pos hsep]

theorem parseStep_headerRow {s : ParseState} {rawLine : String}
    (h : parseFacetHeader (jsTrim rawLine) = none)
    (hne : jsTrim rawLine ≠ "") (hfac : s.currentFacet ≠ none)
    (hsep : isSeparatorRow (jsTrim rawLine) = false)
    (htr : isTableRow (jsTrim rawLine) = true)
    (hin : s.inDataSection = true) (hhp : s.headerParsed = false)
    (hch : s.currentHeaders = []) :
    parseStep s rawLine = { s with currentHeaders := parseTableRow (jsTrim rawLine) } := by
  unfold parseStep
  rw [if_neg (fun hc => hne hc.1), h, if_neg (by
    rintro (h1 | h2)
    · exact hne h1
    · exact hfac h2), if_neg (by rw [hsep]; exact Bool.false_ne_true),
    if_pos ⟨by rw [hin], by rw [htr], by rw [hhp]; exact Bool.false_ne_true, hch⟩]

theorem parseStep_dataRow {s : ParseState} {rawLine facet : String}
    (h : parseFacetHeader (jsTrim rawLine) = none)
    (hne : jsTrim rawLine ≠ "") (hfac : s.currentFacet = some facet)
    (hsep : isSeparatorRow (jsTrim rawLine) = false)
    (htr : isTableRow (jsTrim rawLine) = true)
    (hin : s.inDataSection = true) (hhp : s.headerParsed = true) :
    parseStep s rawLine
      = { s with
          doc := addRowToFacet s.doc facet (buildRow s.currentHeaders (parseTableRow (jsTrim rawLine))) } := by
  unfold parseStep
  rw [if_neg (fun hc => hne hc.1), h, if_neg (by
    rintro (h1 | h2)
    · exact hne h1
    · rw [hfac] at h2; cases h2), if_neg (by rw [hsep]; exact Bool.false_ne_true),
    if_neg (by rintro ⟨-, -, hcon, -⟩; rw [hhp] at hcon; exact hcon rfl),
    if_pos ⟨by rw [hin], by rw [hhp], by rw [htr]⟩, hfac]

/-! ## Well-formed facets: the domain on which generation and parsing
are mutually inverse -/

/-- A cell value that survives the text form unchanged: no surrounding
whitespace (the parser trims every cell), no `|` (the cell delimiter,
unescapable), no newline (the line separator). -/
def goodCell (v : String) : Prop :=
  trimStable v ∧ '|' ∉ v.data ∧ '\n' ∉ v.data

instance (v : String) : Decidable (goodCell v) := by unfold goodCell; infer_instance

/-- Some rendered cell of the row contains a character that is neither a
dash nor whitespace, so the row's rendered line is not classified as a
separator row. -/
def rowVisible (headers : List String) (r : Row) : Prop :=
  ∃ h ∈ headers, ∃ c ∈ (Row.get r h).data, c ≠ '-' ∧ isWs c = false

/-- Some header label contains a character that is neither a dash nor
whitespace (all nine fixed schemas qualify). -/
def headersVisible (headers : List String) : Prop :=
  ∃ h ∈ headers, ∃ c ∈ h.data, c ≠ '-' ∧ isWs c = false

/-- Well-formedness of one facet against its rendered column list. -/
def wfFacet (headers : List String) (rows : List Row) : Prop :=
  headers.Nodup ∧ (∀ h ∈ headers, goodCell h) ∧ headersVisible headers ∧
    ∀ r ∈ rows, r.map Prod.fst = headers ∧ (∀ p ∈ r, goodCell p.2) ∧ rowVisible headers r

instance (headers : List String) (rows : List Row) : Decidable (wfFacet headers rows) := by
  unfold wfFacet rowVisible headersVisible
  infer_instance

theorem headers_ne_nil_of_visible {headers : List String} (h : headersVisible headers) :
    headers ≠ [] := by
  obtain ⟨x, hx, -⟩ := h
  intro he
  rw [he] at hx
  cases hx

theorem goodCell_empty : goodCell "" := by decide

theorem Row.get_good {r : Row} (hr : ∀ p ∈ r, goodCell p.2) (h : String) :
    goodCell (Row.get r h) := by
  unfold Row.get
  rcases hf : r.find? (fun p => p.1 == h) with _ | p
  · rw [hf]
    exact goodCell_empty
  · rw [hf]
    exact hr p (List.mem_of_find?_eq_some hf)

theorem colWidths_length (headers : List String) (rows : List Row) :
    (colWidths headers rows).length = headers.length := by
  simp [colWidths]

/-- Parsing the rendered lines of one facet section, starting from any
state: the facet is opened, the header row records the column list, the
separator marks it parsed, and every data line appends exactly its row. -/
theorem foldl_parseStep_dataRows {name : String} {headers : List String} {ws : List Nat}
    (hnd : headers.Nodup) (hvis : headersVisible headers)
    (hlen : headers.length = ws.length) :
    ∀ (rows : List Row) (s : ParseState),
    s.currentFacet = some name → s.currentHeaders = headers →
    s.inDataSection = true → s.headerParsed = true →
    (∀ r ∈ rows, r.map Prod.fst = headers ∧ (∀ p ∈ r, goodCell p.2) ∧ rowVisible headers r) →
    List.foldl parseStep s (rows.map fun row => renderCellsLine (headers.map (Row.get row)) ws)
      = { s with doc := rows.foldl (fun d r => addRowToFacet d name r) s.doc } := by
  intro rows
  induction rows with
  | nil => intro s h1 h2 h3 h4 _; simp [← h1, ← h2, ← h3, ← h4]
  | cons r rest ih =>
    intro s h1 h2 h3 h4 hrows
    obtain ⟨hkeys, hgood, hvisr⟩ := hrows r (by simp)
    have hne : headers ≠ [] := headers_ne_nil_of_visible hvis
    set cells := headers.map (Row.get r) with hcells
    have hcellsne : cells ≠ [] := by
      rcases headers with _ | _
      · exact absurd rfl hne
      · simp [hcells]
    have hcellslen : cells.length = ws.length := by simp [hcells, hlen]
    have hcellsgood : ∀ v ∈ cells, trimStable v ∧ '|' ∉ v.data := by
      intro v hv
      rw [hcells] at hv
      obtain ⟨h, -, rfl⟩ := List.mem_map.mp hv
      obtain ⟨ht, hp, -⟩ := Row.get_good hgood h
      exact ⟨ht, hp⟩
    have hviscells : ∃ v ∈ cells, ∃ c ∈ v.data, c ≠ '-' ∧ isWs c = false := by
      obtain ⟨h, hh, c, hc, hx⟩ := hvisr
      exact ⟨Row.get r h, List.mem_map_of_mem _ hh, c, hc, hx⟩
    have hnp : ∀ v ∈ cells, '|' ∉ v.data := fun v hv => (hcellsgood v hv).2
    have htrim := renderCellsLine_trim cells ws
    have hstep := @parseStep_dataRow s (renderCellsLine cells ws) name
        (by rw [htrim]; exact renderCellsLine_no_facetHeader cells ws)
        (by rw [htrim]; exact renderCellsLine_ne_empty cells ws)
        h1
        (by rw [htrim]; exact renderCellsLine_not_separator hcellslen hviscells hnp)
        (by rw [htrim]; exact renderCellsLine_isTableRow cells ws)
        h3 h4
    rw [htrim] at hstep
    have hrow : buildRow s.currentHeaders (parseTableRow (renderCellsLine cells ws)) = r := by
      rw [h2, parseTableRow_renderCellsLine hcellsne hcellslen
        (fun v hv => ⟨(hcellsgood v hv).1, (hcellsgood v hv).2⟩)]
      rw [hcells, buildRow_eq_rowPairs hnd, rowPairs_get_recover hkeys hnd]
    rw [List.map_cons, List.foldl_cons, hstep, hrow]
    have hrest := ih
      { doc := addRowToFacet s.doc name r, currentFacet := s.currentFacet,
        currentHeaders := s.currentHeaders, inDataSection := s.inDataSection,
        headerParsed := s.headerParsed }
      h1 h2 h3 h4 (fun u hu => hrows u (by simp [hu]))
    rw [hrest]
    simp

/-- Parsing one full rendered facet section from any starting state. -/
theorem foldl_parseStep_section {name : String} {headers : List String} {rows : List Row}
    (n : Nat) (s : ParseState)
    (hname : parseFacetHeader (facetHeaderLine name n) = some name)
    (htrim : jsTrim (facetHeaderLine name n) = facetHeaderLine name n)
    (hwf : wfFacet headers rows) :
    List.foldl parseStep s (generateTableLines headers rows n name)
      = { doc := rows.foldl (fun d r => addRowToFacet d name r) s.doc,
          currentFacet := some name, currentHeaders := headers,
          inDataSection := true, headerParsed := true } := by
  obtain ⟨hnd, hgoodH, hvis, hrows⟩ := hwf
  have hne : headers ≠ [] := headers_ne_nil_of_visible hvis
  have hWlen : headers.length = (colWidths headers rows).length :=
    (colWidths_length headers rows).symm
  have hfhne : facetHeaderLine name n ≠ "" := by
    intro he
    have hd := congrArg String.data he
    simp [facetHeaderLine, String.data_append] at hd
  have hHgood : ∀ v ∈ headers, trimStable v ∧ '|' ∉ v.data :=
    fun v hv => ⟨(hgoodH v hv).1, (hgoodH v hv).2.1⟩
  have htrimH := renderCellsLine_trim headers (colWidths headers rows)
  have hrecover : parseTableRow (renderCellsLine headers (colWidths headers rows)) = headers :=
    parseTableRow_renderCellsLine hne hWlen hHgood
  have hsh : generateTableLines headers rows n name
      = facetHeaderLine name n :: renderCellsLine headers (colWidths headers rows)
        :: renderSeparator (colWidths headers rows)
        :: (rows.map fun row => renderCellsLine (headers.map (Row.get row)) (colWidths headers rows)) := rfl
  rw [hsh, List.foldl_cons,
    parseStep_facetHeader (by rw [htrim]; exact hfhne) (by rw [htrim]; exact hname)]
  rw [List.foldl_cons]
  have hstep2 := @parseStep_headerRow
    { s with currentFacet := some name, inDataSection := true, headerParsed := false, currentHeaders := [] }
    (renderCellsLine headers (colWidths headers rows))
    (by rw [htrimH]; exact renderCellsLine_no_facetHeader _ _)
    (by rw [htrimH]; exact renderCellsLine_ne_empty _ _)
    (by simp)
    (by rw [htrimH]
        exact renderCellsLine_not_separator hWlen
          (by obtain ⟨h, hh, c, hc, hx⟩ := hvis; exact ⟨h, hh, c, hc, hx⟩)
          (fun v hv => (hHgood v hv).2))
    (by rw [htrimH]; exact renderCellsLine_isTableRow _ _)
    rfl rfl rfl
  rw [htrimH, hrecover] at hstep2
  rw [hstep2, List.foldl_cons]
  have hWne : colWidths headers rows ≠ [] := by
    intro he
    rw [he] at hWlen
    exact hne (List.length_eq_zero.mp hWlen)
  have htrimS := renderSeparator_trim (colWidths headers rows)
  have hstep3 := @parseStep_separator
    { s with currentFacet := some name, inDataSection := true, headerParsed := false, currentHeaders := headers }
    (renderSeparator (colWidths headers rows))
    (by rw [htrimS]; exact renderSeparator_no_facetHeader _)
    (by rw [htrimS]; exact renderSeparator_is_separator hWne)
    (by rw [htrimS]
        intro he
        have := congrArg String.data he
        rw [renderSeparator_data] at this
        cases this)
    (by simp)
  rw [hstep3]
  have hrest := foldl_parseStep_dataRows hnd hvis hWlen rows
    { s with currentFacet := some name, inDataSection := true, headerParsed := true, currentHeaders := headers }
    rfl rfl rfl rfl hrows
  rw [hrest]

/-! ## Appending parsed rows, facet by facet -/

theorem addRowToFacet_table (d : TqlDocument) (r : Row) :
    addRowToFacet d "table" r = { d with table := d.table ++ [r] } := rfl

theorem addRowToFacet_meaning (d : TqlDocument) (r : Row) :
    addRowToFacet d "meaning" r = { d with meaning := d.meaning ++ [r] } := rfl

theorem addRowToFacet_structure (d : TqlDocument) (r : Row) :
    addRowToFacet d "structure" r = { d with structure' := d.structure' ++ [r] } := rfl

theorem addRowToFacet_ambiguity (d : TqlDocument) (r : Row) :
    addRowToFacet d "ambiguity" r = { d with ambiguity := d.ambiguity ++ [r] } := rfl

theorem addRowToFacet_intent (d : TqlDocument) (r : Row) :
    addRowToFacet d "intent" r = { d with intent := d.intent ++ [r] } := rfl

theorem addRowToFacet_context (d : TqlDocument) (r : Row) :
    addRowToFacet d "context" r = { d with context := d.context ++ [r] } := rfl

theorem addRowToFacet_query (d : TqlDocument) (r : Row) :
    addRowToFacet d "query" r = { d with query := d.query ++ [r] } := rfl

theorem addRowToFacet_tasks (d : TqlDocument) (r : Row) :
    addRowToFacet d "tasks" r = { d with tasks := d.tasks ++ [r] } := rfl

theorem addRowToFacet_score (d : TqlDocument) (r : Row) :
    addRowToFacet d "score" r = { d with score := d.score ++ [r] } := rfl

theorem foldl_addRow_table (rows : List Row) : ∀ d : TqlDocument,
    rows.foldl (fun d r => addRowToFacet d "table" r) d = { d with table := d.table ++ rows } := by
  induction rows with
  | nil => intro d; simp
  | cons r rest ih =>
    intro d
    rw [List.foldl_cons, addRowToFacet_table, ih]
    simp

theorem foldl_addRow_meaning (rows : List Row) : ∀ d : TqlDocument,
    rows.foldl (fun d r => addRowToFacet d "meaning" r) d = { d with meaning := d.meaning ++ rows } := by
  induction rows with
  | nil => intro d; simp
  | cons r rest ih =>
    intro d
    rw [List.foldl_cons, addRowToFacet_meaning, ih]
    simp

theorem foldl_addRow_structure (rows : List Row) : ∀ d : TqlDocument,
    rows.foldl (fun d r => addRowToFacet d "structure" r) d = { d with structure' := d.structure' ++ rows } := by
  induction rows with
  | nil => intro d; simp
  | cons r rest ih =>
    intro d
    rw [List.foldl_cons, addRowToFacet_structure, ih]
    simp

theorem foldl_addRow_ambiguity (rows : List Row) : ∀ d : TqlDocument,
    rows.foldl (fun d r => addRowToFacet d "ambiguity" r) d = { d with ambiguity := d.ambiguity ++ rows } := by
  induction rows with
  | nil => intro d; simp
  | cons r rest ih =>
    intro d
    rw [List.foldl_cons, addRowToFacet_ambiguity, ih]
    simp

theorem foldl_addRow_intent (rows : List Row) : ∀ d : TqlDocument,
    rows.foldl (fun d r => addRowToFacet d "intent" r) d = { d with intent := d.intent ++ rows } := by
  induction rows with
  | nil => intro d; simp
  | cons r rest ih =>
    intro d
    rw [List.foldl_cons, addRowToFacet_intent, ih]
    simp

theorem foldl_addRow_context (rows : List Row) : ∀ d : TqlDocument,
    rows.foldl (fun d r => addRowToFacet d "context" r) d = { d with context := d.context ++ rows } := by
  induction rows with
  | nil => intro d; simp
  | cons r rest ih =>
    intro d
    rw [List.foldl_cons, addRowToFacet_context, ih]
    simp

theorem foldl_addRow_query (rows : List Row) : ∀ d : TqlDocument,
    rows.foldl (fun d r => addRowToFacet d "query" r) d = { d with query := d.query ++ rows } := by
  induction rows with
  | nil => intro d; simp
  | cons r rest ih =>
    intro d
    rw [List.foldl_cons, addRowToFacet_query, ih]
    simp

theorem foldl_addRow_tasks (rows : List Row) : ∀ d : TqlDocument,
    rows.foldl (fun d r => addRowToFacet d "tasks" r) d = { d with tasks := d.tasks ++ rows } := by
  induction rows with
  | nil => intro d; simp
  | cons r rest ih =>
    intro d
    rw [List.foldl_cons, addRowToFacet_tasks, ih]
    simp

theorem foldl_addRow_score (rows : List Row) : ∀ d : TqlDocument,
    rows.foldl (fun d r => addRowToFacet d "score" r) d = { d with score := d.score ++ rows } := by
  induction rows with
  | nil => intro d; simp
  | cons r rest ih =>
    intro d
    rw [List.foldl_cons, addRowToFacet_score, ih]
    simp

/-! ## The generated text splits back into the generated lines -/

theorem mem_zipWith_elim {α β γ : Type} {f : α → β → γ} {p : γ} :
    ∀ {as : List α} {bs : List β}, p ∈ List.zipWith f as bs →
      ∃ a ∈ as, ∃ b ∈ bs, p = f a b := by
  intro as
  induction as with
  | nil => intro bs h; cases h
  | cons a as' ih =>
    intro bs h
    rcases bs with _ | ⟨b, bs'⟩
    · cases h
    · rcases List.mem_cons.mp h with rfl | h'
      · exact ⟨a, by simp, b, by simp, rfl⟩
      · obtain ⟨x, hx, y, hy, rfl⟩ := ih h'
        exact ⟨x, by simp [hx], y, by simp [hy], rfl⟩

theorem facetHeaderLine_NL {name : String} (hnm : '\n' ∉ name.data) (n : Nat) :
    '\n' ∉ (facetHeaderLine name n).data := by
  have hdata : (facetHeaderLine name n).data
      = '@' :: (name.data ++ '[' :: ((Nat.repr n).data ++ [']', ':'])) := by
    simp [facetHeaderLine, String.data_append]
  rw [hdata]
  intro h
  rcases List.mem_cons.mp h with h | h
  · exact absurd h (by decide)
  · rcases List.mem_append.mp h with h | h
    · exact hnm h
    · rcases List.mem_cons.mp h with h | h
      · exact absurd h (by decide)
      · rcases List.mem_append.mp h with h | h
        · have hd := (repr_data_digits n).2 _ h
          exact absurd rfl (isDigit_props hd).2.2.1
        · exact absurd h (by decide)

theorem renderCellsLine_NL {cells : List String} {ws : List Nat}
    (hc : ∀ v ∈ cells, '\n' ∉ v.data) : '\n' ∉ (renderCellsLine cells ws).data := by
  rw [renderCellsLine_data]
  intro h
  rcases List.mem_cons.mp h with h | h
  · exact absurd h (by decide)
  · rcases List.mem_append.mp h with h | h
    · rcases List.mem_cons.mp h with h | h
      · exact absurd h (by decide)
      · rcases List.mem_append.mp h with h | h
        · rcases mem_of_mem_jsJoin h with h | ⟨p, hp, hcp⟩
          · exact absurd h (by decide)
          · obtain ⟨v, hv, w, -, rfl⟩ := mem_zipWith_elim hp
            rw [padEnd_data] at hcp
            rcases List.mem_append.mp hcp with h | h
            · exact hc v hv h
            · exact absurd (List.eq_of_mem_replicate h) (by decide)
        · exact absurd h (by decide)
    · exact absurd h (by decide)

theorem renderSeparator_NL (ws : List Nat) : '\n' ∉ (renderSeparator ws).data := by
  rw [renderSeparator_data]
  intro h
  rcases List.mem_cons.mp h with h | h
  · exact absurd h (by decide)
  · rcases List.mem_append.mp h with h | h
    · rcases mem_of_mem_jsJoin h with h | ⟨p, hp, hcp⟩
      · exact absurd h (by decide)
      · simp only [List.mem_map] at hp
        obtain ⟨w, -, rfl⟩ := hp
        exact absurd (List.eq_of_mem_replicate hcp) (by decide)
    · exact absurd h (by decide)

theorem Row.get_NL {r : Row} (hr : ∀ p ∈ r, goodCell p.2) (h : String) :
    '\n' ∉ (Row.get r h).data :=
  (Row.get_good hr h).2.2

theorem wfFacet_lines_NL {headers : List String} {rows : List Row}
    (hw : wfFacet headers rows) (n : Nat) {name : String} (hnm : '\n' ∉ name.data) :
    ∀ l ∈ generateTableLines headers rows n name, '\n' ∉ l.data := by
  obtain ⟨-, hgoodH, -, hrows⟩ := hw
  intro l hl
  have hHn : ∀ v ∈ headers, '\n' ∉ v.data := fun v hv => (hgoodH v hv).2.2
  unfold generateTableLines at hl
  rcases List.mem_append.mp hl with h3 | hdata
  · simp only [List.mem_cons, List.not_mem_nil, or_false] at h3
    rcases h3 with rfl | rfl | rfl
    · exact facetHeaderLine_NL hnm n
    · exact renderCellsLine_NL hHn
    · exact renderSeparator_NL _
  · simp only [List.mem_map] at hdata
    obtain ⟨r, hr, rfl⟩ := hdata
    apply renderCellsLine_NL
    intro v hv
    obtain ⟨u, -, rfl⟩ := List.mem_map.mp hv
    exact Row.get_NL (hrows r hr).2.1 u

theorem splitLines_blank_sep (A B : String) :
    splitLines (A ++ "\n\n" ++ B) = splitLines A ++ [""] ++ splitLines B := by
  unfold splitLines
  have hdata : (A ++ "\n\n" ++ B).data = A.data ++ '\n' :: ('\n' :: B.data) := by
    simp [String.data_append]
  rw [hdata, splitCh_append_cons]
  have h2 : splitCh '\n' ('\n' :: B.data) = [] :: splitCh '\n' B.data := by
    have := splitCh_append_cons '\n' [] B.data
    simpa using this
  rw [h2]
  simp

theorem facetHeaderLine_trim (name : String) (n : Nat) :
    jsTrim (facetHeaderLine name n) = facetHeaderLine name n := by
  have hdata : (facetHeaderLine name n).data
      = '@' :: ((name.data ++ '[' :: ((Nat.repr n).data ++ [']'])) ++ [':']) := by
    simp [facetHeaderLine, String.data_append]
  exact jsTrim_of_ends hdata (by decide) (by decide)

theorem generateTableLines_ne_nil (headers : List String) (rows : List Row)
    (n : Nat) (name : String) : generateTableLines headers rows n name ≠ [] := by
  unfold generateTableLines
  simp

/-! ## The round-trip theorem -/

/-- The column list the generator renders for the `table` facet. -/
def tableHeaders (doc : TqlDocument) : List String :=
  if doc.table.length = 0 then ["index"] else (doc.table.headD []).map Prod.fst

/-- Well-formedness of a whole document: every facet is well-formed
against the column list the generator renders for it. -/
def wfDoc (doc : TqlDocument) : Prop :=
  wfFacet (tableHeaders doc) doc.table ∧
  wfFacet ["index", "column", "definition"] doc.meaning ∧
  wfFacet ["index", "column", "nullAllowed", "dataType", "minValue", "maxValue", "format"]
    doc.structure' ∧
  wfFacet ["index", "query_trigger", "ambiguity_type", "ambiguity_risk"] doc.ambiguity ∧
  wfFacet ["index", "query_trigger", "clarifying_question", "options", "user_response", "user_confirmed"]
    doc.intent ∧
  wfFacet ["index", "key", "value"] doc.context ∧
  wfFacet ["index", "user_message", "timestamp_utc"] doc.query ∧
  wfFacet ["index", "name", "description", "formula"] doc.tasks ∧
  wfFacet ["index", "measure", "value"] doc.score

instance (doc : TqlDocument) : Decidable (wfDoc doc) := by
  unfold wfDoc
  infer_instance

theorem parseStep_empty_line {s : ParseState} (hh : s.currentHeaders ≠ []) :
    parseStep s ""
      = { s with currentHeaders := [], inDataSection := false, headerParsed := false } :=
  parseStep_blank rfl hh

theorem generateTableSection_lines (doc : TqlDocument) :
    generateTableSection doc
      = jsJoin "\n" (generateTableLines (tableHeaders doc) doc.table doc.table.length "table") := by
  by_cases h0 : doc.table.length = 0
  · have h0' : doc.table = [] := List.length_eq_zero.mp h0
    rw [generateTableSection, if_pos h0, tableHeaders, if_pos h0, h0']
    rfl
  · rw [generateTableSection, if_neg h0, tableHeaders, if_neg h0]
    rfl

/-- One facet section followed by its blank separator line, then the rest
of the lines: the blank line closes the table tracking and the fold
continues on the remainder. -/
theorem foldl_parseStep_section_then {name : String} {headers : List String} {rows : List Row}
    (n : Nat) (s : ParseState)
    (hname : parseFacetHeader (facetHeaderLine name n) = some name)
    (htrim : jsTrim (facetHeaderLine name n) = facetHeaderLine name n)
    (hwf : wfFacet headers rows) (rest : List String) :
    List.foldl parseStep s (generateTableLines headers rows n name ++ [""] ++ rest)
      = List.foldl parseStep
          { doc := rows.foldl (fun d r => addRowToFacet d name r) s.doc,
            currentFacet := some name, currentHeaders := [],
            inDataSection := false, headerParsed := false } rest := by
  rw [List.foldl_append, List.foldl_append, foldl_parseStep_section n s hname htrim hwf]
  have hone : List.foldl parseStep
      { doc := rows.foldl (fun d r => addRowToFacet d name r) s.doc,
        currentFacet := some name, currentHeaders := headers,
        inDataSection := true, headerParsed := true } [""]
      = parseStep
          { doc := rows.foldl (fun d r => addRowToFacet d name r) s.doc,
            currentFacet := some name, currentHeaders := headers,
            inDataSection := true, headerParsed := true } "" := rfl
  rw [hone, parseStep_empty_line (by exact headers_ne_nil_of_visible hwf.2.2.1)]

/-- Generation followed by parsing is the identity on well-formed
documents: the whitespace padding added by rendering never leaks into the
parsed values, and every row survives. -/
theorem wf_roundtrip (doc : TqlDocument) (h : wfDoc doc) :
    parseTqlDocumentFromString (generateTqlFromJson doc) = doc := by
  obtain ⟨hwt, hwm, hws, hwa, hwi, hwc, hwq, hwta, hwsc⟩ := h
  -- the generated text splits into the nine sections' lines with blank
  -- separators
  have split_t : splitLines (generateTableSection doc)
      = generateTableLines (tableHeaders doc) doc.table doc.table.length "table" := by
    rw [generateTableSection_lines]
    exact splitLines_join (generateTableLines_ne_nil _ _ _ _)
      (wfFacet_lines_NL hwt _ (by decide))
  have split_m : splitLines (generateMeaningSection doc)
      = generateTableLines ["index", "column", "definition"] doc.meaning doc.meaning.length "meaning" :=
    splitLines_join (generateTableLines_ne_nil _ _ _ _) (wfFacet_lines_NL hwm _ (by decide))
  have split_s : splitLines (generateStructureSection doc)
      = generateTableLines ["index", "column", "nullAllowed", "dataType", "minValue", "maxValue", "format"]
          doc.structure' doc.structure'.length "structure" :=
    splitLines_join (generateTableLines_ne_nil _ _ _ _) (wfFacet_lines_NL hws _ (by decide))
  have split_a : splitLines (generateAmbiguitySection doc)
      = generateTableLines ["index", "query_trigger", "ambiguity_type", "ambiguity_risk"]
          doc.ambiguity doc.ambiguity.length "ambiguity" :=
    splitLines_join (generateTableLines_ne_nil _ _ _ _) (wfFacet_lines_NL hwa _ (by decide))
  have split_i : splitLines (generateIntentSection doc)
      = generateTableLines ["index", "query_trigger", "clarifying_question", "options", "user_response", "user_confirmed"]
          doc.intent doc.intent.length "intent" :=
    splitLines_join (generateTableLines_ne_nil _ _ _ _) (wfFacet_lines_NL hwi _ (by decide))
  have split_c : splitLines (generateContextSection doc)
      = generateTableLines ["index", "key", "value"] doc.context doc.context.length "context" :=
    splitLines_join (generateTableLines_ne_nil _ _ _ _) (wfFacet_lines_NL hwc _ (by decide))
  have split_q : splitLines (generateQuerySection doc)
      = generateTableLines ["index", "user_message", "timestamp_utc"]
          doc.query doc.query.length "query" :=
    splitLines_join (generateTableLines_ne_nil _ _ _ _) (wfFacet_lines_NL hwq _ (by decide))
  have split_ta : splitLines (generateTasksSection doc)
      = generateTableLines ["index", "name", "description", "formula"]
          doc.tasks doc.tasks.length "tasks" :=
    splitLines_join (generateTableLines_ne_nil _ _ _ _) (wfFacet_lines_NL hwta _ (by decide))
  have split_sc : splitLines (generateScoreSection doc)
      = generateTableLines ["index", "measure", "value"] doc.score doc.score.length "score" :=
    splitLines_join (generateTableLines_ne_nil _ _ _ _) (wfFacet_lines_NL hwsc _ (by decide))
  have hgen : generateTqlFromJson doc
      = generateTableSection doc ++ "\n\n" ++ (generateMeaningSection doc ++ "\n\n"
        ++ (generateStructureSection doc ++ "\n\n" ++ (generateAmbiguitySection doc ++ "\n\n"
        ++ (generateIntentSection doc ++ "\n\n" ++ (generateContextSection doc ++ "\n\n"
        ++ (generateQuerySection doc ++ "\n\n" ++ (generateTasksSection doc ++ "\n\n"
        ++ generateScoreSection doc))))))) := rfl
  have hsplit : splitLines (generateTqlFromJson doc)
      = generateTableLines (tableHeaders doc) doc.table doc.table.length "table" ++ [""]
        ++ (generateTableLines ["index", "column", "definition"] doc.meaning doc.meaning.length "meaning" ++ [""]
        ++ (generateTableLines ["index", "column", "nullAllowed", "dataType", "minValue", "maxValue", "format"] doc.structure' doc.structure'.length "structure" ++ [""]
        ++ (generateTableLines ["index", "query_trigger", "ambiguity_type", "ambiguity_risk"] doc.ambiguity doc.ambiguity.length "ambiguity" ++ [""]
        ++ (generateTableLines ["index", "query_trigger", "clarifying_question", "options", "user_response", "user_confirmed"] doc.intent doc.intent.length "intent" ++ [""]
        ++ (generateTableLines ["index", "key", "value"] doc.context doc.context.length "context" ++ [""]
        ++ (generateTableLines ["index", "user_message", "timestamp_utc"] doc.query doc.query.length "query" ++ [""]
        ++ (generateTableLines ["index", "name", "description", "formula"] doc.tasks doc.tasks.length "tasks" ++ [""]
        ++ generateTableLines ["index", "measure", "value"] doc.score doc.score.length "score"))))))) := by
    rw [hgen, splitLines_blank_sep, splitLines_blank_sep, splitLines_blank_sep,
      splitLines_blank_sep, splitLines_blank_sep, splitLines_blank_sep, splitLines_blank_sep,
      splitLines_blank_sep, split_t, split_m, split_s, split_a, split_i, split_c, split_q,
      split_ta, split_sc]
  unfold parseTqlDocumentFromString
  rw [hsplit]
  rw [foldl_parseStep_section_then doc.table.length initParseState
    (@parseFacetHeader_header "table" doc.table.length (by decide) (by decide))
    (facetHeaderLine_trim "table" doc.table.length) hwt]
  rw [foldl_parseStep_section_then doc.meaning.length _
    (@parseFacetHeader_header "meaning" doc.meaning.length (by decide) (by decide))
    (facetHeaderLine_trim "meaning" doc.meaning.length) hwm]
  rw [foldl_parseStep_section_then doc.structure'.length _
    (@parseFacetHeader_header "structure" doc.structure'.length (by decide) (by decide))
    (facetHeaderLine_trim "structure" doc.structure'.length) hws]
  rw [foldl_parseStep_section_then doc.ambiguity.length _
    (@parseFacetHeader_header "ambiguity" doc.ambiguity.length (by decide) (by decide))
    (facetHeaderLine_trim "ambiguity" doc.ambiguity.length) hwa]
  rw [foldl_parseStep_section_then doc.intent.length _
    (@parseFacetHeader_header "intent" doc.intent.length (by decide) (by decide))
    (facetHeaderLine_trim "intent" doc.intent.length) hwi]
  rw [foldl_parseStep_section_then doc.context.length _
    (@parseFacetHeader_header "context" doc.context.length (by decide) (by decide))
    (facetHeaderLine_trim "context" doc.context.length) hwc]
  rw [foldl_parseStep_section_then doc.query.length _
    (@parseFacetHeader_header "query" doc.query.length (by decide) (by decide))
    (facetHeaderLine_trim "query" doc.query.length) hwq]
  rw [foldl_parseStep_section_then doc.tasks.length _
    (@parseFacetHeader_header "tasks" doc.tasks.length (by decide) (by decide))
    (facetHeaderLine_trim "tasks" doc.tasks.length) hwta]
  rw [foldl_parseStep_section doc.score.length _
    (@parseFacetHeader_header "score" doc.score.length (by decide) (by decide))
    (facetHeaderLine_trim "score" doc.score.length) hwsc]
  rw [foldl_addRow_table, foldl_addRow_meaning, foldl_addRow_structure, foldl_addRow_ambiguity,
    foldl_addRow_intent, foldl_addRow_context, foldl_addRow_query, foldl_addRow_tasks,
    foldl_addRow_score]
  obtain ⟨t, m, st, am, it, cx, qu, ts, sc⟩ := doc
  simp [initParseState, emptyTqlDocument]

/-! ## Facts for the remaining claims: inert lines, unopened facets,
discarded diff entries, and row merging -/

theorem parseStep_inert {s : ParseState} {l : String} (hfac : s.currentFacet = none)
    (hch : s.currentHeaders = []) (hfh : parseFacetHeader (jsTrim l) = none) :
    parseStep s l = s :=
  parseStep_skip hfh (Or.inr hfac) (fun hc => hc.2 hch)

theorem foldl_parseStep_no_headers (lines : List String) :
    ∀ s : ParseState, s.currentFacet = none → s.currentHeaders = [] →
    (∀ l ∈ lines, parseFacetHeader (jsTrim l) = none) →
    List.foldl parseStep s lines = s := by
  induction lines with
  | nil => intro s _ _ _; rfl
  | cons l rest ih =>
    intro s h1 h2 h3
    rw [List.foldl_cons, parseStep_inert h1 h2 (h3 l (by simp))]
    exact ih s h1 h2 (fun u hu => h3 u (by simp [hu]))

theorem addRowToFacet_meaning_ne {d : TqlDocument} {facet : String} {r : Row}
    (h : facet ≠ "meaning") : (addRowToFacet d facet r).meaning = d.meaning := by
  unfold addRowToFacet
  split_ifs <;> simp_all

theorem parseStep_meaning {s : ParseState} {l : String}
    (hfh : parseFacetHeader (jsTrim l) ≠ some "meaning")
    (hfac : s.currentFacet ≠ some "meaning") :
    (parseStep s l).doc.meaning = s.doc.meaning
      ∧ (parseStep s l).currentFacet ≠ some "meaning" := by
  unfold parseStep
  by_cases h1 : jsTrim l = "" ∧ s.currentHeaders ≠ []
  · rw [if_pos h1]
    exact ⟨rfl, hfac⟩
  · rw [if_neg h1]
    rcases hm : parseFacetHeader (jsTrim l) with _ | name
    · simp only [hm]
      split_ifs with h2 h3 h4 h5
      · exact ⟨rfl, hfac⟩
      · exact ⟨rfl, hfac⟩
      · exact ⟨rfl, hfac⟩
      · rcases hcf : s.currentFacet with _ | f
        · simp only [hcf]
          refine ⟨?_, ?_⟩ <;> simp
        · simp only [hcf]
          have hf : f ≠ "meaning" := by
            rintro rfl
            exact hfac hcf
          refine ⟨?_, ?_⟩
          · simp [addRowToFacet_meaning_ne hf]
          · simp [hf]
      · exact ⟨rfl, hfac⟩
    · simp only [hm]
      have hn : name ≠ "meaning" := by
        rintro rfl
        exact hfh hm
      refine ⟨?_, ?_⟩
      · simp
      · simp [hn]

theorem foldl_parseStep_meaning (lines : List String) :
    ∀ s : ParseState, s.currentFacet ≠ some "meaning" →
    (∀ l ∈ lines, parseFacetHeader (jsTrim l) ≠ some "meaning") →
    (List.foldl parseStep s lines).doc.meaning = s.doc.meaning := by
  induction lines with
  | nil => intro s _ _; rfl
  | cons l rest ih =>
    intro s h1 h2
    obtain ⟨hm, hf⟩ := parseStep_meaning (h2 l (by simp)) h1
    rw [List.foldl_cons, ih _ hf (fun u hu => h2 u (by simp [hu])), hm]

theorem isSeparatorRow_head {line : String} (h : isSeparatorRow line = true) :
    line.data.head? = some '|' := by
  unfold isSeparatorRow at h
  rcases hd : line.data with _ | ⟨c, rest⟩
  · rw [hd] at h
    cases h
  · rw [hd] at h
    simp only [Bool.and_eq_true, beq_iff_eq] at h
    rw [List.head?_cons, h.1.1.1]

theorem parseStep_doc_of_separator (s : ParseState) (line : String)
    (hsep : isSeparatorRow (jsTrim line) = true) : (parseStep s line).doc = s.doc := by
  have hne : jsTrim line ≠ "" := isSeparatorRow_ne_empty hsep
  have hfh : parseFacetHeader (jsTrim line) = none := by
    apply parseFacetHeader_not_at
    intro he
    rw [isSeparatorRow_head hsep] at he
    exact absurd he (by decide)
  by_cases hfac : s.currentFacet = none
  · rw [parseStep_skip hfh (Or.inr hfac) (fun hc => hne hc.1)]
  · rw [parseStep_separator hfh hsep hne hfac]

theorem addItemToSequence_docOnly {seq : List SequenceItem} {key content : String}
    (h : ∀ i ∈ seq, i.isDocument = true) :
    ∀ i ∈ addItemToSequence seq key content, i.isDocument = true := by
  unfold addItemToSequence
  split_ifs with h1 h2
  · intro i hi
    rcases List.mem_append.mp hi with hi | hi
    · exact h i hi
    · rw [List.mem_singleton] at hi
      subst hi
      rfl
  · exact h
  · exact h

theorem flushItem_docOnly {seq : List SequenceItem} {key : Option String}
    {content : List String} (h : ∀ i ∈ seq, i.isDocument = true) :
    ∀ i ∈ flushItem seq key content, i.isDocument = true := by
  rcases key with _ | k
  · exact h
  · show ∀ i ∈ (if content ≠ [] then addItemToSequence seq k (jsJoin "\n" content) else seq),
      i.isDocument = true
    split_ifs with h1
    · exact addItemToSequence_docOnly h
    · exact h

theorem scanItems_cons (l : String) (rest : List String) (key : Option String)
    (content : List String) (seq : List SequenceItem) :
    scanItems (l :: rest) key content seq
      = match docHeaderKey l with
        | some k => scanItems rest (some k) [] (flushItem seq key content)
        | none =>
          match diffHeaderKey l with
          | some k => scanItems rest (some k) [] (flushItem seq key content)
          | none =>
            match key with
            | some _ => scanItems rest key (content ++ [l]) seq
            | none => scanItems rest none content seq := rfl

theorem scanItems_docOnly (lines : List String) :
    ∀ (key : Option String) (content : List String) (seq : List SequenceItem),
    (∀ i ∈ seq, i.isDocument = true) →
    ∀ i ∈ scanItems lines key content seq, i.isDocument = true := by
  induction lines with
  | nil =>
    intro key content seq h
    exact flushItem_docOnly h
  | cons l rest ih =>
    intro key content seq h
    rw [scanItems_cons]
    rcases hd : docHeaderKey l with _ | k
    · rcases hdf : diffHeaderKey l with _ | k2
      · rcases key with _ | k3
        · simp only [hd, hdf]
          exact ih none content seq h
        · simp only [hd, hdf]
          exact ih (some k3) (content ++ [l]) seq h
      · simp only [hd, hdf]
        exact ih (some k2) [] _ (flushItem_docOnly h)
    · simp only [hd]
      exact ih (some k) [] _ (flushItem_docOnly h)

theorem get_map_update {r : Row} {k1 v1 k : String} (h : k1 ≠ k) :
    Row.get (r.map fun p => if p.1 = k1 then (k1, v1) else p) k = Row.get r k := by
  induction r with
  | nil => rfl
  | cons p r' ih =>
    by_cases hp : p.1 = k1
    · rw [List.map_cons, if_pos hp, Row.get_cons, Row.get_cons]
      rw [if_neg (by exact h), if_neg (fun he => h (hp.symm.trans he))]
      exact ih
    · rw [List.map_cons, if_neg hp, Row.get_cons, Row.get_cons]
      by_cases hk : p.1 = k
      · rw [if_pos hk, if_pos hk]
      · rw [if_neg hk, if_neg hk]
        exact ih

theorem get_append_single_ne {k1 v1 k : String} (h : k1 ≠ k) : ∀ r : Row,
    Row.get (r ++ [(k1, v1)]) k = Row.get r k := by
  intro r
  induction r with
  | nil =>
    rw [List.nil_append, Row.get_cons, if_neg (by exact h)]
  | cons p r' ih =>
    rw [List.cons_append, Row.get_cons, Row.get_cons]
    by_cases hk : p.1 = k
    · rw [if_pos hk, if_pos hk]
    · rw [if_neg hk, if_neg hk]
      exact ih

theorem Row.get_setField_ne {r : Row} {k1 v1 k : String} (h : k1 ≠ k) :
    Row.get (setField r k1 v1) k = Row.get r k := by
  unfold setField
  split_ifs with hany
  · exact get_map_update h
  · exact get_append_single_ne h r

theorem get_mergeRow_not_in {patch : Row} : ∀ (r : Row) (k : String),
    (∀ p ∈ patch, p.1 ≠ k) → Row.get (mergeRow r patch) k = Row.get r k := by
  induction patch with
  | nil => intro r k _; rfl
  | cons q rest ih =>
    intro r k h
    unfold mergeRow
    rw [List.foldl_cons]
    have hrest : rest.foldl (fun r p => setField r p.1 p.2) (setField r q.1 q.2)
        = mergeRow (setField r q.1 q.2) rest := rfl
    rw [hrest, ih _ _ (fun p hp => h p (by simp [hp]))]
    exact Row.get_setField_ne (h q (by simp))

/-! ## Helper lemmas for the claim theorems -/

theorem eq_of_data {a b : String} (h : a.data = b.data) : a = b := by
  cases a
  cases b
  cases h
  rfl

theorem dropLit_append_self : ∀ (p t : List Char), dropLit p (p ++ t) = some t
  | [], _ => rfl
  | c :: cs, t => by
    show (if c = c then dropLit cs (cs ++ t) else none) = some t
    rw [if_pos rfl]
    exact dropLit_append_self cs t

theorem jsStartsWith_of_append {s p : String} (t : List Char) (h : s.data = p.data ++ t) :
    jsStartsWith s p = true := by
  unfold jsStartsWith
  rw [h, dropLit_append_self]
  rfl

theorem jsJoin_cons_cons (sep x y : String) (xs : List String) :
    jsJoin sep (x :: y :: xs) = x ++ sep ++ jsJoin sep (y :: xs) := rfl

theorem jsJoin_single (sep x : String) : jsJoin sep [x] = x := rfl

theorem parse_conv_none {content : String}
    (h : conversationHeaderCount ((splitLines content).headD "") = none) :
    parseTqlConversationFromString content
      = Except.ok ⟨[SequenceItem.document "#document[+0]" (parseTqlDocumentFromString content)]⟩ := by
  simp only [parseTqlConversationFromString, h]

theorem parse_conv_some {content : String} {n : Nat}
    (h : conversationHeaderCount ((splitLines content).headD "") = some n) :
    parseTqlConversationFromString content
      = (if documentsFound content ≠ n then
          Except.error ("Conversation header indicates " ++ Nat.repr n
            ++ " documents, but found " ++ Nat.repr (documentsFound content))
        else Except.ok ⟨scanItems (splitLines content).tail none [] []⟩) := by
  have hd : ((scanItems (splitLines content).tail none [] []).filter fun item =>
      jsStartsWith item.key "#document").length = documentsFound content := rfl
  simp only [parseTqlConversationFromString, h, hd]

/-! ## The spec claims -/

/-- C1: generation followed by parsing is the identity on well-formed
documents — `wfDoc` requires each row's fields to be exactly the facet's
rendered columns and each cell value to be trim-stable, pipe-free and
newline-free, with at least one visibly non-blank cell per row and
header list — so the whitespace padding that rendering adds to cells
never leaks into the parsed values.  The spec's unqualified claim over
every document produced via row operations from a fresh base document is
refuted by `claim_c1_counterexample`: the inverse property needs these
well-formedness conditions. -/
theorem claim_c1 (doc : TqlDocument) (h : wfDoc doc) :
    parseTqlDocumentFromString (generateTqlFromJson doc) = doc :=
  wf_roundtrip doc h

theorem claim_c1_witness :
    wfDoc c1GoodDoc
      ∧ parseTqlDocumentFromString (generateTqlFromJson c1GoodDoc) = c1GoodDoc :=
  ⟨by decide, claim_c1 c1GoodDoc (by decide)⟩

set_option maxRecDepth 8000 in
/-- C1 counterexample: `c1BadDoc` is produced from the freshly generated
base document `c1BaseDoc` by one row operation (inserting an all-empty
`context` row), yet parsing its generated text does not give it back:
the all-empty row renders as a line of pipes and spaces, which the
parser classifies as a separator row and drops. -/
theorem claim_c1_counterexample :
    parseTqlDocumentFromString (generateTqlFromJson c1BadDoc) ≠ c1BadDoc := by
  decide

/-- C2: `diffTqlDocuments` fails with the `DatasetMismatchError` message
exactly when the two `table` facets differ in any cell — the error
carries no diff at all — and never raises this (or any) error when the
`table` facets are structurally identical.  The diff engine is not under
`src/`; `diffTqlDocuments` is modelled from the spec. -/
theorem claim_c2 (before after : TqlDocument) :
    (before.table ≠ after.table →
      diffTqlDocuments before after
        = Except.error "DIFF operations can only be performed on matching datasets")
    ∧ (before.table = after.table →
        ∀ e : String, diffTqlDocuments before after ≠ Except.error e) := by
  constructor
  · intro h
    unfold diffTqlDocuments
    rw [if_pos h]
  · intro h e
    unfold diffTqlDocuments
    rw [if_neg (fun hne => hne h)]
    exact fun hx => Except.noConfusion hx

theorem claim_c2_witness :
    c2Before.table ≠ c2After.table
      ∧ diffTqlDocuments c2Before c2After
          = Except.error "DIFF operations can only be performed on matching datasets"
      ∧ diffTqlDocuments c2Before c2Before
          ≠ Except.error "DIFF operations can only be performed on matching datasets" :=
  ⟨by decide, (claim_c2 c2Before c2After).1 (by decide),
   (claim_c2 c2Before c2Before).2 rfl "DIFF operations can only be performed on matching datasets"⟩

/-- C3: a conversation text whose first line declares `#conversation[n]:`
with `n` different from the number of `#document` sections actually found
in the body fails with the format error naming both counts. -/
theorem claim_c3 (content : String) (n : Nat)
    (hhdr : conversationHeaderCount ((splitLines content).headD "") = some n)
    (hmis : documentsFound content ≠ n) :
    parseTqlConversationFromString content
      = Except.error ("Conversation header indicates " ++ Nat.repr n
          ++ " documents, but found " ++ Nat.repr (documentsFound content)) := by
  rw [parse_conv_some hhdr, if_pos hmis]

theorem claim_c3_witness :
    conversationHeaderCount ((splitLines c3Text).headD "") = some 2
      ∧ documentsFound c3Text ≠ 2
      ∧ parseTqlConversationFromString c3Text
          = Except.error "Conversation header indicates 2 documents, but found 1" := by
  refine ⟨by decide, by decide, ?_⟩
  rw [claim_c3 c3Text 2 (by decide) (by decide)]
  rfl

/-- C4: an input text whose first line does not match the conversation
header pattern is parsed as a single document over the entire text: the
result is a one-entry conversation keyed `#document[+0]`, with no error
raised. -/
theorem claim_c4 (content : String)
    (h : conversationHeaderCount ((splitLines content).headD "") = none) :
    parseTqlConversationFromString content
      = Except.ok ⟨[SequenceItem.document "#document[+0]" (parseTqlDocumentFromString content)]⟩ :=
  parse_conv_none h

theorem claim_c4_witness :
    conversationHeaderCount ((splitLines c4Text).headD "") = none
      ∧ parseTqlConversationFromString c4Text
          = Except.ok ⟨[SequenceItem.document "#document[+0]" (parseTqlDocumentFromString c4Text)]⟩ :=
  ⟨by decide, claim_c4 c4Text (by decide)⟩

/-- C5: for every document — empty facets included — the generated text
is the nine facet sections in the fixed order table, meaning, structure,
ambiguity, intent, context, query, tasks, score, separated by a blank
line (the `"\n\n"` joins), and every facet section begins with its
`@<facet>[<rowCount>]:` header line followed by its column header row
and separator row, even when the facet has zero data rows: no facet
section is ever omitted. -/
theorem claim_c5 (doc : TqlDocument) :
    generateTqlFromJson doc
      = generateTable (tableHeaders doc) doc.table doc.table.length "table" ++ "\n\n"
        ++ generateTable ["index", "column", "definition"] doc.meaning doc.meaning.length "meaning" ++ "\n\n"
        ++ generateTable ["index", "column", "nullAllowed", "dataType", "minValue", "maxValue", "format"] doc.structure' doc.structure'.length "structure" ++ "\n\n"
        ++ generateTable ["index", "query_trigger", "ambiguity_type", "ambiguity_risk"] doc.ambiguity doc.ambiguity.length "ambiguity" ++ "\n\n"
        ++ generateTable ["index", "query_trigger", "clarifying_question", "options", "user_response", "user_confirmed"] doc.intent doc.intent.length "intent" ++ "\n\n"
        ++ generateTable ["index", "key", "value"] doc.context doc.context.length "context" ++ "\n\n"
        ++ generateTable ["index", "user_message", "timestamp_utc"] doc.query doc.query.length "query" ++ "\n\n"
        ++ generateTable ["index", "name", "description", "formula"] doc.tasks doc.tasks.length "tasks" ++ "\n\n"
        ++ generateTable ["index", "measure", "value"] doc.score doc.score.length "score"
    ∧ ∀ (headers : List String) (rows : List Row) (n : Nat) (name : String),
        jsStartsWith (generateTable headers rows n name)
          (facetHeaderLine name n ++ "\n"
            ++ renderCellsLine headers (colWidths headers rows) ++ "\n"
            ++ renderSeparator (colWidths headers rows)) = true := by
  constructor
  · have ht : generateTableSection doc
        = generateTable (tableHeaders doc) doc.table doc.table.length "table" := by
      rw [generateTableSection_lines]
      rfl
    apply eq_of_data
    unfold generateTqlFromJson
    rw [ht]
    simp only [generateMeaningSection, generateStructureSection, generateAmbiguitySection,
      generateIntentSection, generateContextSection, generateQuerySection,
      generateTasksSection, generateScoreSection, jsJoin_cons_cons, jsJoin_single,
      String.data_append, List.append_assoc]
  · intro headers rows n name
    have hgt : generateTable headers rows n name
        = jsJoin "\n" ([facetHeaderLine name n,
            renderCellsLine headers (colWidths headers rows),
            renderSeparator (colWidths headers rows)]
          ++ rows.map fun row => renderCellsLine (headers.map (Row.get row)) (colWidths headers rows)) := rfl
    rw [hgt]
    generalize (rows.map fun row => renderCellsLine (headers.map (Row.get row)) (colWidths headers rows)) = L
    rcases L with _ | ⟨x, xs⟩
    · apply jsStartsWith_of_append []
      simp only [List.append_nil, jsJoin_cons_cons, jsJoin_single,
        String.data_append, List.append_assoc]
    · apply jsStartsWith_of_append ("\n".data ++ (jsJoin "\n" (x :: xs)).data)
      simp only [List.cons_append, List.nil_append, jsJoin_cons_cons, jsJoin_single,
        String.data_append, List.append_assoc]

/-- C6: a parsed conversation contains document entries only — parsing
does not reconstruct anything from a `$diff[+i→+j]:` section.  The spec's
statement that the diff entry and its text body survive parsing as opaque
text is refuted by `claim_c6_counterexample`: `addItemToSequence` skips
`$diff` keys entirely (the push is commented out in the source), so the
diff entry is discarded, not kept as opaque text. -/
theorem claim_c6 (content : String) (conv : TqlConversation)
    (h : parseTqlConversationFromString content = Except.ok conv) :
    conv.sequence.all SequenceItem.isDocument = true := by
  rw [List.all_eq_true]
  rcases hm : conversationHeaderCount ((splitLines content).headD "") with _ | n
  · rw [parse_conv_none hm] at h
    injection h with h2
    subst h2
    intro i hi
    rcases List.mem_singleton.mp hi with rfl
    rfl
  · rw [parse_conv_some hm] at h
    by_cases hc : documentsFound content ≠ n
    · rw [if_pos hc] at h
      exact Except.noConfusion h
    · rw [if_neg hc] at h
      injection h with h2
      subst h2
      intro i hi
      exact scanItems_docOnly (splitLines content).tail none [] []
        (fun j hj => absurd hj (List.not_mem_nil j)) i hi

theorem claim_c6_witness :
    parseTqlConversationFromString c6Text = Except.ok c6Conv
      ∧ c6Conv.sequence.all SequenceItem.isDocument = true := by
  have hp : parseTqlConversationFromString c6Text = Except.ok c6Conv := by decide
  exact ⟨hp, claim_c6 c6Text c6Conv hp⟩

/-- C6 counterexample: the conversation text `c6Text` contains a
`$diff[+0→+1]:` section with a body, yet the parsed conversation holds
the two document entries only — no entry keyed by the diff header
survives, so diff entries do not round-trip even as opaque text. -/
theorem claim_c6_counterexample :
    parseTqlConversationFromString c6Text = Except.ok c6Conv
      ∧ (c6Conv.sequence.any fun i => jsStartsWith (SequenceItem.key i) "$diff") = false :=
  ⟨by decide, by decide⟩

/-- C7: a facet name outside the nine known facets appends the parsed
row to no facet of the document — `addRowToFacet` returns the document
unchanged — and no error is raised: the concrete text `c7Text`, whose
only facet header names the unknown facet `custom` and which carries one
data row, parses to the all-empty document. -/
theorem claim_c7 :
    (∀ (doc : TqlDocument) (facet : String) (row : Row),
      facet ∉ ["ambiguity", "context", "intent", "meaning", "query", "score",
        "structure", "table", "tasks"] →
      addRowToFacet doc facet row = doc)
    ∧ parseTqlDocumentFromString c7Text = emptyTqlDocument := by
  constructor
  · intro doc facet row h
    have h1 : facet ≠ "ambiguity" := fun he => h (by rw [he]; decide)
    have h2 : facet ≠ "context" := fun he => h (by rw [he]; decide)
    have h3 : facet ≠ "intent" := fun he => h (by rw [he]; decide)
    have h4 : facet ≠ "meaning" := fun he => h (by rw [he]; decide)
    have h5 : facet ≠ "query" := fun he => h (by rw [he]; decide)
    have h6 : facet ≠ "score" := fun he => h (by rw [he]; decide)
    have h7 : facet ≠ "structure" := fun he => h (by rw [he]; decide)
    have h8 : facet ≠ "table" := fun he => h (by rw [he]; decide)
    have h9 : facet ≠ "tasks" := fun he => h (by rw [he]; decide)
    unfold addRowToFacet
    rw [if_neg h1, if_neg h2, if_neg h3, if_neg h4, if_neg h5, if_neg h6, if_neg h7,
      if_neg h8, if_neg h9]
  · decide

theorem claim_c7_witness :
    "custom" ∉ ["ambiguity", "context", "intent", "meaning", "query", "score",
      "structure", "table", "tasks"]
      ∧ addRowToFacet emptyTqlDocument "custom" [("index", "1")] = emptyTqlDocument :=
  ⟨by decide, claim_c7.1 emptyTqlDocument "custom" [("index", "1")] (by decide)⟩

/-- C8: `updateRowInMemory` with a 1-based index outside `[1, rowCount]`
fails with `IndexError` and otherwise merges only the patch fields (a
field not named in the patch is untouched); concretely, updating
`meaning` row 1 of a document with an empty `meaning` facet fails with
`IndexError`, while first inserting `{column:"id", definition:""}` and
then applying the update succeeds and yields
`{column:"id", definition:"Unique identifier"}`.  The row operations are
not under `src/`; they are modelled from the spec. -/
theorem claim_c8 :
    (∀ (doc : TqlDocument) (facet : String) (index : Nat) (patch : Row),
      ¬(1 ≤ index ∧ index ≤ (getFacetRows doc facet).length) →
      updateRowInMemory doc facet index patch
        = Except.error "IndexError: row index out of range")
    ∧ (∀ (row patch : Row) (k : String), (∀ p ∈ patch, p.1 ≠ k) →
        Row.get (mergeRow row patch) k = Row.get row k)
    ∧ updateRowInMemory emptyTqlDocument "meaning" 1 c8Patch
        = Except.error "IndexError: row index out of range"
    ∧ (updateRowInMemory c8Inserted "meaning" 1 c8Patch).map (fun d => getFacetRows d "meaning")
        = Except.ok [[("column", "id"), ("definition", "Unique identifier")]] := by
  refine ⟨?_, ?_, ?_, ?_⟩
  · intro doc facet index patch h
    unfold updateRowInMemory
    rw [if_neg h]
  · intro row patch k h
    exact get_mergeRow_not_in row k h
  · decide
  · decide

theorem claim_c8_witness :
    updateRowInMemory emptyTqlDocument "context" 3 [] = Except.error "IndexError: row index out of range"
      ∧ Row.get (mergeRow [("column", "id")] [("definition", "d")]) "column"
          = Row.get [("column", "id")] "column" :=
  ⟨claim_c8.1 emptyTqlDocument "context" 3 [] (by decide),
   claim_c8.2.1 [("column", "id")] [("definition", "d")] "column" (by decide)⟩

/-- C9: `parseTqlDocumentFromString` is total by construction (it
returns a `TqlDocument`, never an error), and a malformed would-be
header line is ordinary content: when no line of the input parses as a
facet header, no section is ever opened and the result is the all-empty
document — all nine facet row collections present and empty. -/
theorem claim_c9 (content : String)
    (h : ∀ l ∈ splitLines content, parseFacetHeader (jsTrim l) = none) :
    parseTqlDocumentFromString content = emptyTqlDocument := by
  unfold parseTqlDocumentFromString
  rw [foldl_parseStep_no_headers (splitLines content) initParseState rfl rfl h]
  rfl

theorem claim_c9_witness :
    ((splitLines c9Text).all fun l => (parseFacetHeader (jsTrim l)).isNone) = true
      ∧ parseTqlDocumentFromString c9Text = emptyTqlDocument :=
  ⟨by decide, claim_c9 c9Text (by decide)⟩

/-- C10: a row whose values for all of the facet's rendered columns are
empty strings renders as a line of pipes and spaces, which the parser
classifies as a separator row, and a separator-classified line never
appends a data row (`parseStep` leaves the document unchanged on it).
The spec-level conclusion that such a row is absent from the reparse of
every document is refuted by `claim_c10_counterexample`: another row's
`|`-containing cell can re-parse into an equal all-empty row. -/
theorem claim_c10 (headers : List String) (r : Row) (ws : List Nat) (s : ParseState)
    (h : ∀ hd ∈ headers, Row.get r hd = "") :
    isSeparatorRow (renderCellsLine (headers.map (Row.get r)) ws) = true
      ∧ (parseStep s (renderCellsLine (headers.map (Row.get r)) ws)).doc = s.doc := by
  have hsep : isSeparatorRow (renderCellsLine (headers.map (Row.get r)) ws) = true := by
    apply isSeparatorRow_of_shape (renderCellsLine_data _ _)
    · simp
    · intro c hc
      rcases List.mem_cons.mp hc with rfl | hc'
      · rfl
      · rcases List.mem_append.mp hc' with hj | hs'
        · rcases mem_of_mem_jsJoin hj with hsp | ⟨p, hp, hcp⟩
          · have hmem : c ∈ [' ', '|', ' '] := hsp
            rcases List.mem_cons.mp hmem with rfl | hmem'
            · rfl
            · rcases List.mem_cons.mp hmem' with rfl | hmem''
              · rfl
              · rcases List.mem_singleton.mp hmem'' with rfl
                rfl
          · obtain ⟨v, hv, w, hw, hpe⟩ := mem_zipWith_elim hp
            obtain ⟨hh, hhm, hveq⟩ := List.mem_map.mp hv
            rw [hpe, ← hveq, h hh hhm] at hcp
            simp only [padEnd, String.data_append] at hcp
            have hc2 : c = ' ' := List.eq_of_mem_replicate (by simpa using hcp)
            subst hc2
            rfl
        · rcases List.mem_singleton.mp hs' with rfl
          rfl
  refine ⟨hsep, ?_⟩
  apply parseStep_doc_of_separator
  rw [renderCellsLine_trim]
  exact hsep

theorem claim_c10_witness :
    isSeparatorRow (renderCellsLine (["index", "key", "value"].map (Row.get c10Row)) [5, 3, 5]) = true
      ∧ (parseStep initParseState
          (renderCellsLine (["index", "key", "value"].map (Row.get c10Row)) [5, 3, 5])).doc
          = initParseState.doc := by
  have h := claim_c10 ["index", "key", "value"] c10Row [5, 3, 5] initParseState (by decide)
  exact ⟨h.1, h.2⟩

set_option maxRecDepth 8000 in
/-- C10 counterexample: in `c10Doc` the `context` facet holds the
all-empty row `c10Row`, yet that row is present in the reparse of the
generated text: the second context row's `value` cell contains a `|`,
and its rendered line re-parses — the cell split on the embedded pipe,
the surplus cell beyond the three headers dropped — into a row equal to
`c10Row`. -/
theorem claim_c10_counterexample :
    c10Row ∈ c10Doc.context
      ∧ ((["index", "key", "value"] : List String).all fun hd => Row.get c10Row hd == "") = true
      ∧ c10Row ∈ (parseTqlDocumentFromString (generateTqlFromJson c10Doc)).context :=
  ⟨by decide, by decide, by decide⟩

end Tql
